import Mathlib

/-!
Shallow embedding of the Synacor-challenge workbench (src/src/main.rs,
src/src/ack.rs) in Lean 4, together with proofs about the properties the
specification states.

Modelling conventions:
* `u16` machine words are modelled as `Nat`; wherever the Rust code can
  wrap a 16-bit quantity the model reduces modulo 65536 (release-profile
  two's-complement wrapping), and panics (`expect`, `unwrap`,
  out-of-range `try_into`, division by zero) are modelled as `none`.
* `BTreeMap<u16,u16>` is modelled as an association list kept in strictly
  increasing key order (`Mem`); `Mem.Sorted` captures the canonical
  ordering every real `BTreeMap` has.
* The pending-input `Vec<char>` is stored by the Rust code in reversed
  order and consumed with `pop` from the back; the model stores the same
  queue in reading order and consumes from the front (a bijective change
  of representation).
* The stack `Vec<u16>` pushes/pops at the back; the model pushes/pops at
  the head of a `List` (again a bijective change of representation).
* `OUT` printing to the terminal and the REPL's printing are irrelevant
  to machine state and are not modelled; the accumulated output string is.
* An `IN` instruction executed with an empty queue reads a line from
  stdin; `Vm.step` takes that line as an explicit oracle argument.
-/

namespace Synacor

/-- The overlay map: model of `BTreeMap<u16, u16>` as an association list
in strictly increasing key order. -/
abbrev Mem := List (Nat × Nat)

namespace Mem

/-- `BTreeMap::get`. -/
def lookup (k : Nat) : Mem → Option Nat
  | [] => none
  | (k1, v1) :: t => if k = k1 then some v1 else lookup k t

/-- `BTreeMap::insert`: order-preserving insert-or-replace. -/
def insert (k v : Nat) : Mem → Mem
  | [] => [(k, v)]
  | (k1, v1) :: t =>
    if k < k1 then (k, v) :: (k1, v1) :: t
    else if k = k1 then (k, v) :: t
    else (k1, v1) :: insert k v t

/-- `BTreeMap::remove`. -/
def erase (k : Nat) (m : Mem) : Mem := m.filter (fun p => p.1 != k)

/-- `memory.keys().max().unwrap_or(&0)`. -/
def maxKey (m : Mem) : Nat := m.foldr (fun p acc => max p.1 acc) 0

/-- `memory.split_off(&k)`: the part of the map with keys `≥ k`. -/
def splitGe (k : Nat) (m : Mem) : Mem := m.filter (fun p => k ≤ p.1)

/-- The canonical strictly-increasing key order of a `BTreeMap`. -/
def Sorted (m : Mem) : Prop := List.Pairwise (fun p q => p.1 < q.1) m

instance (m : Mem) : Decidable (Sorted m) := by
  unfold Sorted; infer_instance

end Mem

/-- The 22 opcodes (`enum Op` in the source; `In` is rendered `inp`). -/
inductive Op
  | halt | set | push | pop | eq | gt | jmp | jt | jf | add | mult
  | mod | and | or | not | rmem | wmem | call | ret | out | inp | nop
deriving DecidableEq

/-- `TryFromPrimitive` decoding of a word into an opcode: words `0..=21`
decode, everything else is "unknown op". -/
def decodeOp (w : Nat) : Option Op :=
  if w = 0 then some Op.halt
  else if w = 1 then some Op.set
  else if w = 2 then some Op.push
  else if w = 3 then some Op.pop
  else if w = 4 then some Op.eq
  else if w = 5 then some Op.gt
  else if w = 6 then some Op.jmp
  else if w = 7 then some Op.jt
  else if w = 8 then some Op.jf
  else if w = 9 then some Op.add
  else if w = 10 then some Op.mult
  else if w = 11 then some Op.mod
  else if w = 12 then some Op.and
  else if w = 13 then some Op.or
  else if w = 14 then some Op.not
  else if w = 15 then some Op.rmem
  else if w = 16 then some Op.wmem
  else if w = 17 then some Op.call
  else if w = 18 then some Op.ret
  else if w = 19 then some Op.out
  else if w = 20 then some Op.inp
  else if w = 21 then some Op.nop
  else none

/-- The machine state (`struct Vm` in the source). -/
structure Vm where
  rom : List Nat
  memory : Mem
  stack : List Nat
  instruction_pointer : Nat
  running : Bool
  input : List Nat
  output : List Nat
  live_output : Bool
deriving DecidableEq

namespace Vm

/-- `Vm::new`: fresh machine over a program, registers zeroed. -/
def new (program : List Nat) : Vm where
  rom := program
  memory := (List.range 8).map (fun r => (32768 + r, 0))
  stack := []
  instruction_pointer := 0
  running := true
  input := []
  output := []
  live_output := true

/-- `Vm::get_rom`. -/
def get_rom (vm : Vm) (addr : Nat) : Option Nat := vm.rom[addr]?

/-- `Vm::try_get`: overlay first, then ROM. -/
def try_get (vm : Vm) (addr : Nat) : Option Nat :=
  match Mem.lookup addr vm.memory with
  | some v => some v
  | none => vm.get_rom addr

/-- `Vm::set`: canonicalising write (drop the overlay entry when the
value equals ROM). -/
def set (vm : Vm) (address value : Nat) : Vm :=
  if vm.get_rom address = some value then
    { vm with memory := Mem.erase address vm.memory }
  else
    { vm with memory := Mem.insert address value vm.memory }

/-- `Vm::fetch_set`: raw word at IP, advancing IP (`none` = unreadable
memory, a fatal fault). -/
def fetch_set (vm : Vm) : Option (Nat × Vm) :=
  match vm.try_get vm.instruction_pointer with
  | none => none
  | some i =>
    some (i, { vm with instruction_pointer := (vm.instruction_pointer + 1) % 65536 })

/-- `Vm::fetch_read`: like `fetch_set` but words `≥ 32768` are
dereferenced through the overlay (register file). -/
def fetch_read (vm : Vm) : Option (Nat × Vm) :=
  match vm.fetch_set with
  | none => none
  | some (i, vm1) =>
    if 32768 ≤ i then
      match vm1.try_get i with
      | none => none
      | some v => some (v, vm1)
    else some (i, vm1)

/-- `Vm::binop`: fetch a destination and two values, apply `f`, reduce
modulo 32768, store.  `f` returning `none` models a panicking closure
(only `%` by zero). -/
def binop (vm : Vm) (f : Nat → Nat → Option Nat) : Option Vm :=
  match vm.fetch_set with
  | none => none
  | some (a, vm1) =>
    match vm1.fetch_read with
    | none => none
    | some (b, vm2) =>
      match vm2.fetch_read with
      | none => none
      | some (c, vm3) =>
        match f b c with
        | none => none
        | some r => some (vm3.set a (r % 32768))

/-- One decode-execute cycle (`Vm::step`).  `stdinLine` is the line the
blocking `stdin().read_line` would deliver when an `IN` finds the queue
empty (codepoints of the raw line).  `none` models a panic: unknown op,
unreadable memory, stack underflow on POP, `%` by zero, `OUT` of a
surrogate codepoint, or an empty refilled input queue. -/
def step (vm : Vm) (stdinLine : List Nat) : Option Vm :=
  match vm.fetch_read with
  | none => none
  | some (w, vm0) =>
    match decodeOp w with
    | none => none
    | some op =>
      match op with
      | Op.halt => some { vm0 with running := false }
      | Op.set =>
        match vm0.fetch_set with
        | none => none
        | some (a, vm1) =>
          match vm1.fetch_read with
          | none => none
          | some (b, vm2) => some (vm2.set a b)
      | Op.push =>
        match vm0.fetch_read with
        | none => none
        | some (a, vm1) => some { vm1 with stack := a :: vm1.stack }
      | Op.pop =>
        match vm0.fetch_set with
        | none => none
        | some (a, vm1) =>
          match vm1.stack with
          | [] => none
          | v :: rest => some ({ vm1 with stack := rest }.set a v)
      | Op.eq => vm0.binop (fun b c => some (if b = c then 1 else 0))
      | Op.gt => vm0.binop (fun b c => some (if b > c then 1 else 0))
      | Op.jmp =>
        match vm0.fetch_read with
        | none => none
        | some (a, vm1) => some { vm1 with instruction_pointer := a }
      | Op.jt =>
        match vm0.fetch_read with
        | none => none
        | some (a, vm1) =>
          match vm1.fetch_read with
          | none => none
          | some (b, vm2) =>
            some (if a ≠ 0 then { vm2 with instruction_pointer := b } else vm2)
      | Op.jf =>
        match vm0.fetch_read with
        | none => none
        | some (a, vm1) =>
          match vm1.fetch_read with
          | none => none
          | some (b, vm2) =>
            some (if a = 0 then { vm2 with instruction_pointer := b } else vm2)
      | Op.add => vm0.binop (fun b c => some ((b + c) % 65536))
      | Op.mult => vm0.binop (fun b c => some ((b * c) % 65536))
      | Op.mod => vm0.binop (fun b c => if c = 0 then none else some (b % c))
      | Op.and => vm0.binop (fun b c => some (Nat.land b c))
      | Op.or => vm0.binop (fun b c => some (Nat.lor b c))
      | Op.not =>
        match vm0.fetch_set with
        | none => none
        | some (a, vm1) =>
          match vm1.fetch_read with
          | none => none
          | some (b, vm2) => some (vm2.set a ((65535 - b) % 32768))
      | Op.rmem =>
        match vm0.fetch_set with
        | none => none
        | some (a, vm1) =>
          match vm1.fetch_read with
          | none => none
          | some (ab, vm2) =>
            match vm2.try_get ab with
            | none => none
            | some b => some (vm2.set a b)
      | Op.wmem =>
        match vm0.fetch_read with
        | none => none
        | some (a, vm1) =>
          match vm1.fetch_read with
          | none => none
          | some (b, vm2) => some (vm2.set a b)
      | Op.call =>
        match vm0.fetch_read with
        | none => none
        | some (a, vm1) =>
          some { vm1 with
                 stack := vm1.instruction_pointer :: vm1.stack
                 instruction_pointer := a }
      | Op.ret =>
        match vm0.stack with
        | [] => some { vm0 with running := false }
        | v :: rest => some { vm0 with instruction_pointer := v, stack := rest }
      | Op.out =>
        match vm0.fetch_read with
        | none => none
        | some (ch, vm1) =>
          if 55296 ≤ ch ∧ ch ≤ 57343 then none
          else some { vm1 with output := vm1.output ++ [ch] }
      | Op.inp =>
        let vmr :=
          if vm0.input = [] then
            { vm0 with input := stdinLine.filter (fun c => c != 13) }
          else vm0
        match vmr.fetch_set with
        | none => none
        | some (a, vm1) =>
          match vm1.input with
          | [] => none
          | c :: rest => some ({ vm1 with input := rest }.set a (c % 65536))
      | Op.nop => some vm0

/-- `Vm::peek_op`: raw word at IP decoded (panic = `none`); note it does
not dereference register-naming words. -/
def peek_op (vm : Vm) : Option Op :=
  match vm.try_get vm.instruction_pointer with
  | none => none
  | some w => decodeOp w

/-- Outcome of `Vm::run_to_input`. -/
inductive RunResult
  | ret (vm : Vm)
  | fault
  | timeout
deriving DecidableEq

/-- `Vm::run_to_input`: step while `running` and the shared atomic
keep-going flag reads true, breaking before an `IN` whose queue is empty.
`flags n` is the value the `n`-th poll of the atomic flag observes; the
fuel bounds how many iterations we observe (`timeout` = still looping).
Inside this loop an `IN` is only ever executed with a non-empty queue,
so stdin is never read and the step oracle can be `[]`. -/
def run_to_input : Nat → (Nat → Bool) → Vm → RunResult
  | 0, _, _ => RunResult.timeout
  | fuel + 1, flags, vm =>
    if vm.running && flags 0 then
      match vm.peek_op with
      | none => RunResult.fault
      | some op =>
        if op = Op.inp ∧ vm.input = [] then RunResult.ret vm
        else
          match vm.step [] with
          | none => RunResult.fault
          | some vm2 => run_to_input fuel (fun n => flags (n + 1)) vm2
    else RunResult.ret vm

/-- `Vm::flash_rom`: consolidate the effective image into a new ROM and
keep only the overlay entries at addresses `≥ 32768`.  The source
converts `rom.len()` to `u16` with `try_into().unwrap()` (panic when the
ROM exceeds 65535 words, modelled as `none`) and computes
`max_key + 1` in `u16` (wrapping, modelled modulo 65536). -/
def flash_rom (vm : Vm) : Option Vm :=
  if 65535 < vm.rom.length then none
  else
    some { vm with
           rom := (List.range
                    (min 32768 (max ((Mem.maxKey vm.memory + 1) % 65536)
                      vm.rom.length))).map
                  (fun i => (vm.try_get i).getD 0)
           memory := Mem.splitGe 32768 vm.memory }

end Vm

/-- Spec §8: "For every address A with A < len(rom): if overlay contains
A then overlay[A] ≠ rom[A]".  Entries beyond the ROM have
`get_rom = none`, for which the condition is vacuous. -/
def MinimalOverlay (vm : Vm) : Prop :=
  ∀ p ∈ vm.memory, vm.get_rom p.1 ≠ some p.2

instance (vm : Vm) : Decidable (MinimalOverlay vm) := by
  unfold MinimalOverlay; infer_instance

/-- Observational refinement: `w` agrees with `v` on every component
except the ROM/overlay split, and can read everything `v` can read, with
the same values. -/
def Sim (v w : Vm) : Prop :=
  w.stack = v.stack ∧ w.instruction_pointer = v.instruction_pointer ∧
  w.running = v.running ∧ w.input = v.input ∧ w.output = v.output ∧
  w.live_output = v.live_output ∧
  ∀ a x, v.try_get a = some x → w.try_get a = some x

/-- Iterated `Vm.step`; `oracle n` is the stdin line the `n`-th executed
instruction would read if it is an `IN` with an empty queue. -/
def runSteps (oracle : Nat → List Nat) : Nat → Vm → Option Vm
  | 0, vm => some vm
  | n + 1, vm =>
    match vm.step (oracle 0) with
    | none => none
    | some vm2 => runSteps (fun k => oracle (k + 1)) n vm2

/-- `pure_ack` (src/src/ack.rs). -/
def pure_ack (a b c : Nat) : Nat :=
  if a = 0 then (b + 1) % 32768
  else if b = 0 then pure_ack ((a + 32767) % 32768) c c
  else pure_ack ((a + 32767) % 32768) (pure_ack a ((b + 32767) % 32768) c) c
termination_by (a, b)
decreasing_by
  · apply Prod.Lex.left
    omega
  · apply Prod.Lex.right
    omega
  · apply Prod.Lex.left
    omega

/-- The memo table: model of `HashMap<(u16, u16), u16>` as an
association list (insertion order is irrelevant to lookups). -/
abbrev AckMemo := List ((Nat × Nat) × Nat)

/-- `HashMap::get` on the memo table. -/
def lookupAck : AckMemo → Nat → Nat → Option Nat
  | [], _, _ => none
  | (k, v) :: t, a, b => if k = (a, b) then some v else lookupAck t a b

/-- `HashMap::insert` on the memo table. -/
def insertAck : AckMemo → Nat → Nat → Nat → AckMemo
  | [], a, b, v => [((a, b), v)]
  | (k, w) :: t, a, b, v =>
    if k = (a, b) then ((a, b), v) :: t else (k, w) :: insertAck t a b v

/-- `memo_ack` (src/src/ack.rs): same recursion with a cache keyed by
`(a, b)` only, threaded through the calls; returns result and cache. -/
def memo_ack (memo : AckMemo) (a b c : Nat) : Nat × AckMemo :=
  match lookupAck memo a b with
  | some ans => (ans, memo)
  | none =>
    if a = 0 then
      ((b + 1) % 32768, insertAck memo a b ((b + 1) % 32768))
    else if b = 0 then
      let p := memo_ack memo ((a + 32767) % 32768) c c
      (p.1, insertAck p.2 a b p.1)
    else
      let p := memo_ack memo a ((b + 32767) % 32768) c
      let q := memo_ack p.2 ((a + 32767) % 32768) p.1 c
      (q.1, insertAck q.2 a b q.1)
termination_by (a, b)
decreasing_by
  · apply Prod.Lex.left
    omega
  · apply Prod.Lex.right
    omega
  · apply Prod.Lex.left
    omega

/-- Cache coherence: every entry stores the pure value for its key. -/
def AckValid (c : Nat) (memo : AckMemo) : Prop :=
  ∀ a b v, lookupAck memo a b = some v → v = pure_ack a b c

/-- One parsed REPL command. -/
inductive Cmd
  | noop
  | set (a v : Nat)
  | load (k : Nat)
  | feed (line : List Nat) (fuel : Nat) (flags : Nat → Bool)

/-- The REPL's mutable state: working machine, the `saves` (first-seen)
map, the `by_step` map and the step counter. -/
structure ReplState where
  vm : Vm
  saves : List (Vm × Nat)
  bystep : List (Nat × Vm)
  stepNo : Nat
deriving DecidableEq

/-- `HashMap::get` on `saves`. -/
def lookupVm : List (Vm × Nat) → Vm → Option Nat
  | [], _ => none
  | (w, n) :: t, vm => if w = vm then some n else lookupVm t vm

/-- `HashMap::insert` on `saves`. -/
def insertVm : List (Vm × Nat) → Vm → Nat → List (Vm × Nat)
  | [], vm, n => [(vm, n)]
  | (w, m) :: t, vm, n =>
    if w = vm then (vm, n) :: t else (w, m) :: insertVm t vm n

/-- `HashMap::get` on `by_step`. -/
def lookupStep : List (Nat × Vm) → Nat → Option Vm
  | [], _ => none
  | (m, w) :: t, n => if m = n then some w else lookupStep t n

/-- `HashMap::insert` on `by_step`. -/
def insertStep : List (Nat × Vm) → Nat → Vm → List (Nat × Vm)
  | [], n, vm => [(n, vm)]
  | (m, w) :: t, n, vm =>
    if m = n then (n, vm) :: t else (m, w) :: insertStep t n vm

/-- The block at the top of the REPL loop:
`let first_seen = *saves.entry(vm.clone()).or_insert(step_no);
 if first_seen == step_no { by_step.insert(step_no, vm.clone()); }`. -/
def snapshot (st : ReplState) : ReplState :=
  match lookupVm st.saves st.vm with
  | some m =>
    if m = st.stepNo then
      { st with bystep := insertStep st.bystep st.stepNo st.vm }
    else st
  | none =>
    { st with saves := insertVm st.saves st.vm st.stepNo
              bystep := insertStep st.bystep st.stepNo st.vm }

/-- The unconditional `let output = vm.take_output();` the loop runs
between its snapshot block and the command prompt (src/src/main.rs line
304): it swaps the accumulated output buffer with the empty string
(mutating the working machine; the drained text itself is discarded —
the `println!` that would show it is commented out). -/
def drain (st : ReplState) : ReplState :=
  { st with vm := { st.vm with output := [] } }

/-- Processing one command (the command dispatch of the REPL loop,
applied to the already-snapshotted-and-drained working state); `none`
means the command faults or never suspends again, so the next read
point is not reached. -/
def doCmd (st : ReplState) : Cmd → Option ReplState
  | Cmd.noop => some st
  | Cmd.set a v => some { st with vm := st.vm.set a v }
  | Cmd.load k =>
    some (match lookupStep st.bystep k with
      | some sav => { st with vm := sav }
      | none => st)
  | Cmd.feed line fuel flags =>
    match Vm.run_to_input fuel flags
        { st.vm with input := line.filter (fun ch => ch != 13) } with
    | Vm.RunResult.ret vm2 =>
      some { st with vm := vm2, stepNo := st.stepNo + 1 }
    | _ => none

/-- REPL state when `main` enters the loop. -/
def initRepl (vm0 : Vm) : ReplState :=
  { vm := vm0, saves := [], bystep := [], stepNo := 0 }

/-- Drive the REPL to the read point reached after the given commands:
each iteration snapshots, drains the output buffer (`take_output`), and
then processes one command; the result is the state at the prompt, just
after the snapshot block and the drain. -/
def runRepl : ReplState → List Cmd → Option ReplState
  | st, [] => some (drain (snapshot st))
  | st, cmd :: cmds =>
    match doCmd (drain (snapshot st)) cmd with
    | none => none
    | some st1 => runRepl st1 cmds

/-- Checks that the working machine's output buffer is empty at every
loop top (equivalently, that every `take_output` drain of the trace is
a no-op): this fails as soon as the initial machine or some executed
command leaves pending output, or a `load` restores a recorded state
that still carries output. -/
def outputsClean : ReplState → List Cmd → Bool
  | st, [] => st.vm.output.isEmpty
  | st, cmd :: cmds =>
    st.vm.output.isEmpty &&
      (match doCmd (drain (snapshot st)) cmd with
       | none => true
       | some st1 => outputsClean st1 cmds)

/-- The time-travel invariant: every recorded state is stored in
`by_step` under its first-seen index. -/
def SnapshotInv (st : ReplState) : Prop :=
  ∀ vm m, lookupVm st.saves vm = some m → lookupStep st.bystep m = some vm

def Cmd.isSet : Cmd → Bool
  | Cmd.set _ _ => true
  | _ => false

/-- The inductive invariant: the claim's invariant, its converse, a
bound on `by_step`'s indices, and coherence of the working state. -/
def GoodRepl (st : ReplState) : Prop :=
  SnapshotInv st ∧
  (∀ n vm, lookupStep st.bystep n = some vm → lookupVm st.saves vm = some n) ∧
  (∀ n vm, lookupStep st.bystep n = some vm → n ≤ st.stepNo) ∧
  (lookupVm st.saves st.vm = none → lookupStep st.bystep st.stepNo = none)


/-! ### Association-list lemmas -/

namespace Mem

theorem lookup_insert_self (k v : Nat) (m : Mem) :
    lookup k (insert k v m) = some v := by
  induction m with
  | nil => simp [insert, lookup]
  | cons p t ih =>
    obtain ⟨k1, v1⟩ := p
    by_cases h1 : k < k1
    · simp [insert, h1, lookup]
    · by_cases h2 : k = k1
      · simp [insert, h1, h2, lookup]
      · simp [insert, h1, h2, lookup, ih]

theorem lookup_insert_ne (k v j : Nat) (m : Mem) (h : j ≠ k) :
    lookup j (insert k v m) = lookup j m := by
  induction m with
  | nil => simp [insert, lookup, h]
  | cons p t ih =>
    obtain ⟨k1, v1⟩ := p
    by_cases h1 : k < k1
    · simp [insert, h1, lookup, h]
    · by_cases h2 : k = k1
      · subst h2; simp [insert, h1, lookup, h]
      · simp [insert, h1, h2, lookup, ih]

theorem lookup_erase (k j : Nat) (m : Mem) :
    lookup j (erase k m) = if j = k then none else lookup j m := by
  induction m with
  | nil => simp [erase, lookup]
  | cons p t ih =>
    obtain ⟨k1, v1⟩ := p
    by_cases h1 : k1 = k
    · have he : erase k ((k1, v1) :: t) = erase k t := by
        simp [erase, List.filter_cons, h1]
      rw [he, ih]
      by_cases h2 : j = k
      · simp [h2]
      · have h3 : j ≠ k1 := by rw [h1]; exact h2
        simp [h2, lookup, h3]
    · have he : erase k ((k1, v1) :: t) = (k1, v1) :: erase k t := by
        simp [erase, List.filter_cons, bne_iff_ne, h1]
      rw [he]
      by_cases h2 : j = k1
      · subst h2
        simp [lookup, h1]
      · simp [lookup, h2, ih]

theorem mem_insert {p : Nat × Nat} {k v : Nat} {m : Mem}
    (h : p ∈ insert k v m) : p = (k, v) ∨ p ∈ m := by
  induction m with
  | nil => simpa [insert] using h
  | cons q t ih =>
    obtain ⟨k1, v1⟩ := q
    by_cases h1 : k < k1
    · simp only [insert, if_pos h1, List.mem_cons] at h
      rcases h with h | h | h
      · exact Or.inl h
      · exact Or.inr (by simp [h])
      · exact Or.inr (List.mem_cons_of_mem _ h)
    · by_cases h2 : k = k1
      · simp only [insert, if_neg h1, if_pos h2, List.mem_cons] at h
        rcases h with h | h
        · exact Or.inl h
        · exact Or.inr (List.mem_cons_of_mem _ h)
      · simp only [insert, if_neg h1, if_neg h2, List.mem_cons] at h
        rcases h with h | h
        · exact Or.inr (by simp [h])
        · rcases ih h with h | h
          · exact Or.inl h
          · exact Or.inr (List.mem_cons_of_mem _ h)

theorem mem_erase {p : Nat × Nat} {k : Nat} {m : Mem}
    (h : p ∈ erase k m) : p ∈ m :=
  List.mem_of_mem_filter h

theorem mem_splitGe {p : Nat × Nat} {k : Nat} {m : Mem}
    (h : p ∈ splitGe k m) : p ∈ m :=
  List.mem_of_mem_filter h

theorem lookup_mem {k v : Nat} {m : Mem} (h : lookup k m = some v) :
    (k, v) ∈ m := by
  induction m with
  | nil => simp [lookup] at h
  | cons p t ih =>
    obtain ⟨k1, v1⟩ := p
    by_cases h1 : k = k1
    · subst h1
      simp [lookup] at h
      simp [h]
    · simp only [lookup, if_neg h1] at h
      exact List.mem_cons_of_mem _ (ih h)

theorem le_maxKey {k v : Nat} {m : Mem} (h : lookup k m = some v) :
    k ≤ maxKey m := by
  have hm := lookup_mem h
  clear h
  induction m with
  | nil => simp at hm
  | cons p t ih =>
    rcases List.mem_cons.mp hm with h | h
    · rw [← h]
      simp only [maxKey, List.foldr]
      exact le_max_left _ _
    · have h2 := ih h
      simp only [maxKey, List.foldr] at h2 ⊢
      omega

theorem lookup_splitGe (t k : Nat) (m : Mem) :
    lookup k (splitGe t m) = if t ≤ k then lookup k m else none := by
  induction m with
  | nil => simp [splitGe, lookup]
  | cons p l ih =>
    obtain ⟨k1, v1⟩ := p
    by_cases h1 : t ≤ k1
    · have hsp : splitGe t ((k1, v1) :: l) = (k1, v1) :: splitGe t l := by
        simp [splitGe, List.filter_cons, h1]
      rw [hsp]
      by_cases h2 : k = k1
      · subst h2
        simp [lookup, h1]
      · simp [lookup, h2, ih]
    · have hsp : splitGe t ((k1, v1) :: l) = splitGe t l := by
        simp [splitGe, List.filter_cons, h1]
      rw [hsp, ih]
      by_cases h2 : k = k1
      · subst h2
        simp [lookup, h1]
      · simp [lookup, h2]

theorem erase_of_lookup_none {k : Nat} {m : Mem} (h : lookup k m = none) :
    erase k m = m := by
  induction m with
  | nil => rfl
  | cons p t ih =>
    obtain ⟨k1, v1⟩ := p
    by_cases h1 : k = k1
    · subst h1; simp [lookup] at h
    · simp only [lookup, if_neg h1] at h
      have h1s : (k1 != k) = true := by
        simp [bne_iff_ne]; exact fun hh => h1 hh.symm
      simp [erase, List.filter, h1s] at ih ⊢
      exact ih h

theorem insert_of_lookup_some {k v : Nat} {m : Mem}
    (hs : Sorted m) (h : lookup k m = some v) : insert k v m = m := by
  induction m with
  | nil => simp [lookup] at h
  | cons p t ih =>
    obtain ⟨k1, v1⟩ := p
    have hs1 : Sorted t := (List.pairwise_cons.mp hs).2
    have hlt : ∀ q ∈ t, k1 < q.1 := (List.pairwise_cons.mp hs).1
    by_cases h1 : k = k1
    · subst h1
      simp [lookup] at h
      subst h
      simp [insert]
    · simp only [lookup, if_neg h1] at h
      have hk1 : k1 < k := hlt _ (lookup_mem h)
      have hnlt : ¬ k < k1 := by omega
      simp [insert, hnlt, h1, ih hs1 h]

end Mem

/-! ### Basic `Vm` access lemmas -/

namespace Vm

@[simp] theorem set_rom (vm : Vm) (a v : Nat) : (vm.set a v).rom = vm.rom := by
  unfold set; split <;> rfl

@[simp] theorem set_stack (vm : Vm) (a v : Nat) : (vm.set a v).stack = vm.stack := by
  unfold set; split <;> rfl

@[simp] theorem set_ip (vm : Vm) (a v : Nat) :
    (vm.set a v).instruction_pointer = vm.instruction_pointer := by
  unfold set; split <;> rfl

@[simp] theorem set_running (vm : Vm) (a v : Nat) : (vm.set a v).running = vm.running := by
  unfold set; split <;> rfl

@[simp] theorem set_input (vm : Vm) (a v : Nat) : (vm.set a v).input = vm.input := by
  unfold set; split <;> rfl

@[simp] theorem set_output (vm : Vm) (a v : Nat) : (vm.set a v).output = vm.output := by
  unfold set; split <;> rfl

@[simp] theorem set_live (vm : Vm) (a v : Nat) :
    (vm.set a v).live_output = vm.live_output := by
  unfold set; split <;> rfl

theorem try_get_set_self (vm : Vm) (a v : Nat) :
    (vm.set a v).try_get a = some v := by
  unfold set try_get
  by_cases h : vm.get_rom a = some v
  · simp only [if_pos h, Mem.lookup_erase, if_pos rfl]
    simpa [get_rom] using h
  · simp [if_neg h, Mem.lookup_insert_self]

theorem try_get_set_ne (vm : Vm) (a v b : Nat) (hne : b ≠ a) :
    (vm.set a v).try_get b = vm.try_get b := by
  unfold set try_get
  by_cases h : vm.get_rom a = some v
  · simp only [if_pos h, Mem.lookup_erase, if_neg hne]
    rfl
  · simp only [if_neg h, Mem.lookup_insert_ne _ _ _ _ hne]
    rfl

end Vm

/-! ### Inversion lemmas for the operand-fetch primitives -/

namespace Vm

theorem fetch_set_inv {vm : Vm} {i : Nat} {vm1 : Vm}
    (h : vm.fetch_set = some (i, vm1)) :
    vm.try_get vm.instruction_pointer = some i ∧
    vm1 = { vm with instruction_pointer := (vm.instruction_pointer + 1) % 65536 } := by
  unfold fetch_set at h
  cases hg : vm.try_get vm.instruction_pointer with
  | none => rw [hg] at h; cases h
  | some j =>
    simp only [hg] at h
    cases h
    exact ⟨rfl, rfl⟩

theorem fetch_read_inv {vm : Vm} {v : Nat} {vm1 : Vm}
    (h : vm.fetch_read = some (v, vm1)) :
    ∃ i, vm.fetch_set = some (i, vm1) ∧
      (i < 32768 → v = i) ∧ (32768 ≤ i → vm1.try_get i = some v) := by
  unfold fetch_read at h
  cases hf : vm.fetch_set with
  | none => rw [hf] at h; cases h
  | some p =>
    obtain ⟨i, vm2⟩ := p
    simp only [hf] at h
    by_cases hr : 32768 ≤ i
    · rw [if_pos hr] at h
      cases hg : vm2.try_get i with
      | none => rw [hg] at h; cases h
      | some w =>
        simp only [hg] at h
        cases h
        exact ⟨i, rfl, fun hlt => absurd hr (by omega), fun _ => hg⟩
    · rw [if_neg hr] at h
      injection h with hp
      injection hp with hi hv
      subst hi
      subst hv
      exact ⟨i, rfl, fun _ => rfl, fun hge => absurd hge hr⟩

theorem fetch_set_fields {vm : Vm} {i : Nat} {vm1 : Vm}
    (h : vm.fetch_set = some (i, vm1)) :
    vm1.memory = vm.memory ∧ vm1.rom = vm.rom ∧ vm1.stack = vm.stack ∧
    vm1.running = vm.running ∧ vm1.input = vm.input ∧
    vm1.output = vm.output ∧ vm1.live_output = vm.live_output := by
  obtain ⟨-, h2⟩ := fetch_set_inv h
  subst h2
  exact ⟨rfl, rfl, rfl, rfl, rfl, rfl, rfl⟩

theorem fetch_read_fields {vm : Vm} {v : Nat} {vm1 : Vm}
    (h : vm.fetch_read = some (v, vm1)) :
    vm1.memory = vm.memory ∧ vm1.rom = vm.rom ∧ vm1.stack = vm.stack ∧
    vm1.running = vm.running ∧ vm1.input = vm.input ∧
    vm1.output = vm.output ∧ vm1.live_output = vm.live_output := by
  obtain ⟨i, hf, -, -⟩ := fetch_read_inv h
  exact fetch_set_fields hf

end Vm

/-! ### Overlay minimality (claims C5, C7) -/

theorem get_rom_set (vm : Vm) (a v x : Nat) :
    (vm.set a v).get_rom x = vm.get_rom x := by
  unfold Vm.get_rom; rw [Vm.set_rom]

theorem minimal_of_fields {v w : Vm} (h1 : w.memory = v.memory)
    (h2 : w.rom = v.rom) (hm : MinimalOverlay v) : MinimalOverlay w := by
  intro p hp
  rw [h1] at hp
  unfold Vm.get_rom
  rw [h2]
  exact hm p hp

theorem set_minimal {vm : Vm} (hm : MinimalOverlay vm) (a x : Nat) :
    MinimalOverlay (vm.set a x) := by
  intro p hp
  rw [get_rom_set]
  unfold Vm.set at hp
  by_cases hb : vm.get_rom a = some x
  · rw [if_pos hb] at hp
    exact hm p (Mem.mem_erase hp)
  · rw [if_neg hb] at hp
    rcases Mem.mem_insert hp with h | h
    · subst h; exact hb
    · exact hm p h

theorem binop_minimal {vm vm' : Vm} {f : Nat → Nat → Option Nat}
    (hm : MinimalOverlay vm) (h : vm.binop f = some vm') :
    MinimalOverlay vm' := by
  unfold Vm.binop at h
  cases ha : vm.fetch_set with
  | none => rw [ha] at h; cases h
  | some pa =>
    obtain ⟨a, vm1⟩ := pa
    simp only [ha] at h
    cases hb : vm1.fetch_read with
    | none => rw [hb] at h; cases h
    | some pb =>
      obtain ⟨b, vm2⟩ := pb
      simp only [hb] at h
      cases hc : vm2.fetch_read with
      | none => rw [hc] at h; cases h
      | some pc =>
        obtain ⟨c, vm3⟩ := pc
        simp only [hc] at h
        cases hr : f b c with
        | none => rw [hr] at h; cases h
        | some r =>
          simp only [hr] at h
          cases h
          have hm1 := minimal_of_fields (Vm.fetch_set_fields ha).1
            (Vm.fetch_set_fields ha).2.1 hm
          have hm2 := minimal_of_fields (Vm.fetch_read_fields hb).1
            (Vm.fetch_read_fields hb).2.1 hm1
          have hm3 := minimal_of_fields (Vm.fetch_read_fields hc).1
            (Vm.fetch_read_fields hc).2.1 hm2
          exact set_minimal hm3 _ _

/-- Claim C5 — Overlay minimality invariant: a successful decode-execute
step (in particular one executing SET, WMEM, POP, a binary operation, or
RMEM — the only opcodes that write) preserves overlay minimality: after
it, every overlay entry at an address inside ROM differs from the ROM
word there. -/
theorem c5_step_preserves_minimal {vm vm' : Vm} {l : List Nat}
    (hm : MinimalOverlay vm) (h : vm.step l = some vm') :
    MinimalOverlay vm' := by
  unfold Vm.step at h
  cases hfr : vm.fetch_read with
  | none => rw [hfr] at h; cases h
  | some p =>
    obtain ⟨w, vm0⟩ := p
    simp only [hfr] at h
    have hm0 := minimal_of_fields (Vm.fetch_read_fields hfr).1
      (Vm.fetch_read_fields hfr).2.1 hm
    cases hop : decodeOp w with
    | none => rw [hop] at h; cases h
    | some op =>
      simp only [hop] at h
      cases op
      case halt => cases h; exact minimal_of_fields rfl rfl hm0
      case set =>
        cases ha : vm0.fetch_set with
        | none => rw [ha] at h; cases h
        | some pa =>
          obtain ⟨a, vm1⟩ := pa
          simp only [ha] at h
          cases hb : vm1.fetch_read with
          | none => rw [hb] at h; cases h
          | some pb =>
            obtain ⟨b, vm2⟩ := pb
            simp only [hb] at h
            cases h
            have hm1 := minimal_of_fields (Vm.fetch_set_fields ha).1
              (Vm.fetch_set_fields ha).2.1 hm0
            have hm2 := minimal_of_fields (Vm.fetch_read_fields hb).1
              (Vm.fetch_read_fields hb).2.1 hm1
            exact set_minimal hm2 _ _
      case push =>
        cases ha : vm0.fetch_read with
        | none => rw [ha] at h; cases h
        | some pa =>
          obtain ⟨a, vm1⟩ := pa
          simp only [ha] at h
          cases h
          exact minimal_of_fields rfl rfl
            (minimal_of_fields (Vm.fetch_read_fields ha).1
              (Vm.fetch_read_fields ha).2.1 hm0)
      case pop =>
        cases ha : vm0.fetch_set with
        | none => rw [ha] at h; cases h
        | some pa =>
          obtain ⟨a, vm1⟩ := pa
          simp only [ha] at h
          cases hs : vm1.stack with
          | nil => rw [hs] at h; cases h
          | cons v rest =>
            simp only [hs] at h
            cases h
            have hm1 := minimal_of_fields (Vm.fetch_set_fields ha).1
              (Vm.fetch_set_fields ha).2.1 hm0
            have hmx : MinimalOverlay { vm1 with stack := rest } :=
              minimal_of_fields (v := vm1) rfl rfl hm1
            exact set_minimal hmx _ _
      case eq => exact binop_minimal hm0 h
      case gt => exact binop_minimal hm0 h
      case add => exact binop_minimal hm0 h
      case mult => exact binop_minimal hm0 h
      case mod => exact binop_minimal hm0 h
      case and => exact binop_minimal hm0 h
      case or => exact binop_minimal hm0 h
      case jmp =>
        cases ha : vm0.fetch_read with
        | none => rw [ha] at h; cases h
        | some pa =>
          obtain ⟨a, vm1⟩ := pa
          simp only [ha] at h
          cases h
          exact minimal_of_fields rfl rfl
            (minimal_of_fields (Vm.fetch_read_fields ha).1
              (Vm.fetch_read_fields ha).2.1 hm0)
      case jt =>
        cases ha : vm0.fetch_read with
        | none => rw [ha] at h; cases h
        | some pa =>
          obtain ⟨a, vm1⟩ := pa
          simp only [ha] at h
          cases hb : vm1.fetch_read with
          | none => rw [hb] at h; cases h
          | some pb =>
            obtain ⟨b, vm2⟩ := pb
            simp only [hb] at h
            cases h
            have hm2 := minimal_of_fields (Vm.fetch_read_fields hb).1
              (Vm.fetch_read_fields hb).2.1
              (minimal_of_fields (Vm.fetch_read_fields ha).1
                (Vm.fetch_read_fields ha).2.1 hm0)
            split <;> exact minimal_of_fields rfl rfl hm2
      case jf =>
        cases ha : vm0.fetch_read with
        | none => rw [ha] at h; cases h
        | some pa =>
          obtain ⟨a, vm1⟩ := pa
          simp only [ha] at h
          cases hb : vm1.fetch_read with
          | none => rw [hb] at h; cases h
          | some pb =>
            obtain ⟨b, vm2⟩ := pb
            simp only [hb] at h
            cases h
            have hm2 := minimal_of_fields (Vm.fetch_read_fields hb).1
              (Vm.fetch_read_fields hb).2.1
              (minimal_of_fields (Vm.fetch_read_fields ha).1
                (Vm.fetch_read_fields ha).2.1 hm0)
            split <;> exact minimal_of_fields rfl rfl hm2
      case not =>
        cases ha : vm0.fetch_set with
        | none => rw [ha] at h; cases h
        | some pa =>
          obtain ⟨a, vm1⟩ := pa
          simp only [ha] at h
          cases hb : vm1.fetch_read with
          | none => rw [hb] at h; cases h
          | some pb =>
            obtain ⟨b, vm2⟩ := pb
            simp only [hb] at h
            cases h
            have hm2 := minimal_of_fields (Vm.fetch_read_fields hb).1
              (Vm.fetch_read_fields hb).2.1
              (minimal_of_fields (Vm.fetch_set_fields ha).1
                (Vm.fetch_set_fields ha).2.1 hm0)
            exact set_minimal hm2 _ _
      case rmem =>
        cases ha : vm0.fetch_set with
        | none => rw [ha] at h; cases h
        | some pa =>
          obtain ⟨a, vm1⟩ := pa
          simp only [ha] at h
          cases hb : vm1.fetch_read with
          | none => rw [hb] at h; cases h
          | some pb =>
            obtain ⟨ab, vm2⟩ := pb
            simp only [hb] at h
            cases hg : vm2.try_get ab with
            | none => rw [hg] at h; cases h
            | some b =>
              simp only [hg] at h
              cases h
              have hm2 := minimal_of_fields (Vm.fetch_read_fields hb).1
                (Vm.fetch_read_fields hb).2.1
                (minimal_of_fields (Vm.fetch_set_fields ha).1
                  (Vm.fetch_set_fields ha).2.1 hm0)
              exact set_minimal hm2 _ _
      case wmem =>
        cases ha : vm0.fetch_read with
        | none => rw [ha] at h; cases h
        | some pa =>
          obtain ⟨a, vm1⟩ := pa
          simp only [ha] at h
          cases hb : vm1.fetch_read with
          | none => rw [hb] at h; cases h
          | some pb =>
            obtain ⟨b, vm2⟩ := pb
            simp only [hb] at h
            cases h
            have hm2 := minimal_of_fields (Vm.fetch_read_fields hb).1
              (Vm.fetch_read_fields hb).2.1
              (minimal_of_fields (Vm.fetch_read_fields ha).1
                (Vm.fetch_read_fields ha).2.1 hm0)
            exact set_minimal hm2 _ _
      case call =>
        cases ha : vm0.fetch_read with
        | none => rw [ha] at h; cases h
        | some pa =>
          obtain ⟨a, vm1⟩ := pa
          simp only [ha] at h
          cases h
          exact minimal_of_fields rfl rfl
            (minimal_of_fields (Vm.fetch_read_fields ha).1
              (Vm.fetch_read_fields ha).2.1 hm0)
      case ret =>
        cases hs : vm0.stack with
        | nil => rw [hs] at h; cases h; exact minimal_of_fields rfl rfl hm0
        | cons v rest => rw [hs] at h; cases h; exact minimal_of_fields rfl rfl hm0
      case out =>
        cases ha : vm0.fetch_read with
        | none => rw [ha] at h; cases h
        | some pa =>
          obtain ⟨ch, vm1⟩ := pa
          simp only [ha] at h
          split at h
          · cases h
          · cases h
            exact minimal_of_fields rfl rfl
              (minimal_of_fields (Vm.fetch_read_fields ha).1
                (Vm.fetch_read_fields ha).2.1 hm0)
      case inp =>
        set vmr := if vm0.input = [] then
            { vm0 with input := l.filter (fun c => c != 13) } else vm0 with hvmr
        have hmr : MinimalOverlay vmr := by
          rw [hvmr]; split <;> exact minimal_of_fields rfl rfl hm0
        cases ha : vmr.fetch_set with
        | none => rw [ha] at h; cases h
        | some pa =>
          obtain ⟨a, vm1⟩ := pa
          simp only [ha] at h
          cases hi : vm1.input with
          | nil => rw [hi] at h; cases h
          | cons c rest =>
            simp only [hi] at h
            cases h
            have hm1 := minimal_of_fields (Vm.fetch_set_fields ha).1
              (Vm.fetch_set_fields ha).2.1 hmr
            have hmx : MinimalOverlay { vm1 with input := rest } :=
              minimal_of_fields (v := vm1) rfl rfl hm1
            exact set_minimal hmx _ _
      case nop => cases h; exact hm0

/-- Witness for C5 at a concrete SET instruction. -/
theorem c5_witness :
    MinimalOverlay (Vm.new [1, 32768, 5]) ∧
    MinimalOverlay
      { rom := [1, 32768, 5]
        memory := [(32768, 5), (32769, 0), (32770, 0), (32771, 0),
                   (32772, 0), (32773, 0), (32774, 0), (32775, 0)]
        stack := [], instruction_pointer := 3, running := true
        input := [], output := [], live_output := true } :=
  ⟨by decide,
    @c5_step_preserves_minimal (Vm.new [1, 32768, 5])
      { rom := [1, 32768, 5]
        memory := [(32768, 5), (32769, 0), (32770, 0), (32771, 0),
                   (32772, 0), (32773, 0), (32774, 0), (32775, 0)]
        stack := [], instruction_pointer := 3, running := true
        input := [], output := [], live_output := true }
      [] (by decide) (by decide)⟩

/-- Claim C7 — Write-back idempotence: on a canonically ordered, minimal
overlay, writing back the effective value already stored at a readable
address leaves the overlay unchanged. -/
theorem c7_set_get_identity {vm : Vm} {a v : Nat}
    (hs : Mem.Sorted vm.memory) (hm : MinimalOverlay vm)
    (h : vm.try_get a = some v) : (vm.set a v).memory = vm.memory := by
  unfold Vm.set
  unfold Vm.try_get at h
  cases hl : Mem.lookup a vm.memory with
  | none =>
    simp only [hl] at h
    rw [if_pos h]
    exact Mem.erase_of_lookup_none hl
  | some w =>
    rw [hl] at h
    have h2 : some w = some v := h
    obtain rfl := Option.some.inj h2
    have hne : vm.get_rom a ≠ some w := hm _ (Mem.lookup_mem hl)
    rw [if_neg hne]
    exact Mem.insert_of_lookup_some hs hl

/-- Witness for C7 at a concrete machine. -/
theorem c7_witness :
    Mem.Sorted (Vm.new [5]).memory ∧ MinimalOverlay (Vm.new [5]) ∧
    ((Vm.new [5]).set 0 5).memory = (Vm.new [5]).memory :=
  ⟨by decide, by decide, c7_set_get_identity (by decide) (by decide) (by decide)⟩

/-! ### Claim C3: invalid-opcode fault -/

theorem decodeOp_eq_none {w : Nat} (h : 21 < w) : decodeOp w = none := by
  unfold decodeOp
  repeat rw [if_neg (by omega)]

/-- Claim C3 (amended) — Invalid-opcode fault: the opcode is obtained by
an operand-read (`fetch_read`), which dereferences register-naming words
32768..32775; whenever the value that read produces lies outside 0..21,
executing one step is a fatal "unknown op" fault. -/
theorem c3_unknown_op_fault {vm vm1 : Vm} {l : List Nat} {w : Nat}
    (h : vm.fetch_read = some (w, vm1)) (hw : 21 < w) :
    vm.step l = none := by
  unfold Vm.step
  simp only [h, decodeOp_eq_none hw]

/-- Counterexample to C3 as stated: the register-naming word 32768 sits
at the instruction pointer (outside 0..21), yet the step is not a fault —
the fetch dereferences R0, which holds 0, and the machine executes HALT. -/
theorem c3_counterexample :
    (Vm.new [32768]).try_get 0 = some 32768 ∧ 21 < 32768 ∧
    ((Vm.new [32768]).step []).isSome = true := by decide

/-- Witness for C3 at the unknown word 22. -/
theorem c3_witness : 21 < 22 ∧ (Vm.new [22]).step [] = none :=
  ⟨by decide,
    @c3_unknown_op_fault (Vm.new [22])
      { Vm.new [22] with instruction_pointer := 1 } [] 22
      (by decide) (by decide)⟩

/-! ### Claim C8: empty-stack asymmetry -/

/-- Claim C8 (amended) — Empty-stack asymmetry: POP (opcode 3) on an
empty stack is a fatal fault, while RET (opcode 18) on an empty stack
halts cleanly: it clears `running` and advances the instruction pointer
past the RET opcode, leaving every other component unchanged. -/
theorem c8_empty_stack {v1 v2 : Vm} {l1 l2 : List Nat}
    (hs1 : v1.stack = []) (hp : v1.try_get v1.instruction_pointer = some 3)
    (hs2 : v2.stack = []) (hr : v2.try_get v2.instruction_pointer = some 18) :
    v1.step l1 = none ∧
    v2.step l2 = some { v2 with
      instruction_pointer := (v2.instruction_pointer + 1) % 65536
      running := false } := by
  constructor
  · have hfs : v1.fetch_set =
        some (3, { v1 with instruction_pointer := (v1.instruction_pointer + 1) % 65536 }) := by
      unfold Vm.fetch_set
      rw [hp]
    have hfr : v1.fetch_read =
        some (3, { v1 with instruction_pointer := (v1.instruction_pointer + 1) % 65536 }) := by
      unfold Vm.fetch_read
      simp only [hfs]
      norm_num
    unfold Vm.step
    simp only [hfr]
    have hd : decodeOp 3 = some Op.pop := by decide
    simp only [hd]
    cases hfs2 : ({ v1 with instruction_pointer :=
        (v1.instruction_pointer + 1) % 65536 } : Vm).fetch_set with
    | none => rfl
    | some pa =>
      obtain ⟨a, vmx⟩ := pa
      have hstx : vmx.stack = [] := by
        rw [(Vm.fetch_set_fields hfs2).2.2.1]
        exact hs1
      simp only [hstx]
  · have hfs : v2.fetch_set =
        some (18, { v2 with instruction_pointer := (v2.instruction_pointer + 1) % 65536 }) := by
      unfold Vm.fetch_set
      rw [hr]
    have hfr : v2.fetch_read =
        some (18, { v2 with instruction_pointer := (v2.instruction_pointer + 1) % 65536 }) := by
      unfold Vm.fetch_read
      simp only [hfs]
      norm_num
    unfold Vm.step
    simp only [hfr]
    have hd : decodeOp 18 = some Op.ret := by decide
    simp only [hd, hs2]

/-- Counterexample to C8 as stated: RET on an empty stack does not leave
"the rest of the state unchanged" — the instruction pointer advances. -/
theorem c8_counterexample :
    (Vm.new [18]).step [] =
      some { Vm.new [18] with instruction_pointer := 1, running := false } ∧
    (1 : Nat) ≠ (Vm.new [18]).instruction_pointer := by decide

/-- Witness for C8 at concrete POP and RET programs. -/
theorem c8_witness :
    (Vm.new [3]).stack = [] ∧ (Vm.new [3]).try_get 0 = some 3 ∧
    (Vm.new [18]).stack = [] ∧ (Vm.new [18]).try_get 0 = some 18 ∧
    (Vm.new [3]).step [] = none ∧
    (Vm.new [18]).step [] = some { Vm.new [18] with
      instruction_pointer := (0 + 1) % 65536
      running := false } := by
  refine ⟨by decide, by decide, by decide, by decide, ?_⟩
  exact @c8_empty_stack (Vm.new [3]) (Vm.new [18]) [] []
    (by decide) (by decide) (by decide) (by decide)

/-! ### Claim C6: arithmetic boundary values and MULT wraparound -/

theorem regs_eq :
    (List.range 8).map (fun r => (32768 + r, 0)) =
      ([(32768, 0), (32769, 0), (32770, 0), (32771, 0),
        (32772, 0), (32773, 0), (32774, 0), (32775, 0)] : Mem) := by decide

theorem lookup_regs_lt {k : Nat} (h : k < 32768) :
    Mem.lookup k ((List.range 8).map (fun r => (32768 + r, 0))) = none := by
  rw [regs_eq]
  simp only [Mem.lookup]
  split_ifs <;> first | rfl | omega

theorem try_get_new_lt {p : List Nat} {k : Nat} (h : k < 32768) :
    (Vm.new p).try_get k = p[k]? := by
  unfold Vm.try_get Vm.new Vm.get_rom
  rw [lookup_regs_lt h]

theorem mult_prog_eval (b c : Nat) (hb : b < 32768) (hc : c < 32768) :
    ((Vm.new [10, 32768, b, c]).step []).bind (fun v => v.try_get 32768)
      = some (b * c % 32768) := by
  have hnb : ¬ 32768 ≤ b := by omega
  have hnc : ¬ 32768 ≤ c := by omega
  have hstep : (Vm.new [10, 32768, b, c]).step [] =
      some (({ rom := [10, 32768, b, c]
               memory := [(32768, 0), (32769, 0), (32770, 0), (32771, 0),
                          (32772, 0), (32773, 0), (32774, 0), (32775, 0)]
               stack := [], instruction_pointer := 4, running := true
               input := [], output := [], live_output := true } : Vm).set
             32768 (b * c % 65536 % 32768)) := by
    simp [Vm.step, Vm.binop, Vm.fetch_read, Vm.fetch_set, Vm.try_get,
      Vm.get_rom, Vm.new, regs_eq, Mem.lookup, decodeOp, hnb, hnc]
  rw [hstep]
  simp only [Option.bind]
  rw [Vm.try_get_set_self,
    Nat.mod_mod_of_dvd _ (by norm_num : (32768 : Nat) ∣ 65536)]

theorem mod_one_prog_eval (b : Nat) (hb : b < 32768) :
    ((Vm.new [11, 32768, b, 1]).step []).bind (fun v => v.try_get 32768)
      = some 0 := by
  have hnb : ¬ 32768 ≤ b := by omega
  have hstep : (Vm.new [11, 32768, b, 1]).step [] =
      some (({ rom := [11, 32768, b, 1]
               memory := [(32768, 0), (32769, 0), (32770, 0), (32771, 0),
                          (32772, 0), (32773, 0), (32774, 0), (32775, 0)]
               stack := [], instruction_pointer := 4, running := true
               input := [], output := [], live_output := true } : Vm).set
             32768 0) := by
    simp [Vm.step, Vm.binop, Vm.fetch_read, Vm.fetch_set, Vm.try_get,
      Vm.get_rom, Vm.new, regs_eq, Mem.lookup, decodeOp, hnb]
    rw [Nat.mod_one]
  rw [hstep]
  simp only [Option.bind]
  rw [Vm.try_get_set_self]

/-- Claim C6 — Arithmetic boundary values and MULT wraparound
equivalence: ADD 32767 + 1 stores 0; MULT 32767 * 2 stores 32766; NOT 0
stores 32767; NOT 32767 stores 0; MOD of any 15-bit b by 1 stores 0; and
for all 15-bit b, c the MULT instruction (16-bit wrapping multiplication
followed by reduction modulo 32768) stores exactly b * c mod 32768. -/
theorem c6_arithmetic (b c : Nat) (hb : b < 32768) (hc : c < 32768) :
    ((Vm.new [9, 32768, 32767, 1]).step []).bind (fun v => v.try_get 32768)
        = some 0 ∧
    ((Vm.new [10, 32768, 32767, 2]).step []).bind (fun v => v.try_get 32768)
        = some 32766 ∧
    ((Vm.new [14, 32768, 0]).step []).bind (fun v => v.try_get 32768)
        = some 32767 ∧
    ((Vm.new [14, 32768, 32767]).step []).bind (fun v => v.try_get 32768)
        = some 0 ∧
    ((Vm.new [11, 32768, b, 1]).step []).bind (fun v => v.try_get 32768)
        = some 0 ∧
    ((Vm.new [10, 32768, b, c]).step []).bind (fun v => v.try_get 32768)
        = some (b * c % 32768) :=
  ⟨by decide, by decide, by decide, by decide,
    mod_one_prog_eval b hb, mult_prog_eval b c hb hc⟩

/-- Witness for C6 at b = 5, c = 7. -/
theorem c6_witness :
    (5 : Nat) < 32768 ∧ (7 : Nat) < 32768 ∧
    ((Vm.new [10, 32768, 5, 7]).step []).bind (fun v => v.try_get 32768)
      = some (5 * 7 % 32768) :=
  ⟨by decide, by decide, (c6_arithmetic 5 7 (by decide) (by decide)).2.2.2.2.2⟩

/-! ### Claim C4: suspension postcondition of `run_to_input` -/

/-- Claim C4 (amended) — Suspension postcondition: provided the external
keep-going flag reads true at every poll, whenever `run_to_input`
returns with `running = true` the machine is positioned at an IN
instruction (not past it) and its input queue is empty. -/
theorem c4_suspension {fuel : Nat} {flags : Nat → Bool} {vm vmf : Vm}
    (hall : ∀ n, flags n = true)
    (h : Vm.run_to_input fuel flags vm = Vm.RunResult.ret vmf)
    (hr : vmf.running = true) :
    vmf.peek_op = some Op.inp ∧ vmf.input = [] := by
  induction fuel generalizing flags vm with
  | zero => simp [Vm.run_to_input] at h
  | succ n ih =>
    unfold Vm.run_to_input at h
    by_cases hc : (vm.running && flags 0) = true
    · rw [if_pos hc] at h
      cases hpk : vm.peek_op with
      | none => rw [hpk] at h; cases h
      | some op =>
        simp only [hpk] at h
        by_cases hbrk : op = Op.inp ∧ vm.input = []
        · rw [if_pos hbrk] at h
          cases h
          exact ⟨by rw [hpk, hbrk.1], hbrk.2⟩
        · rw [if_neg hbrk] at h
          cases hst : vm.step [] with
          | none => rw [hst] at h; cases h
          | some vm2 =>
            simp only [hst] at h
            exact ih (fun k => hall (k + 1)) h
    · rw [if_neg hc] at h
      cases h
      rw [hall 0, hr] at hc
      simp at hc

/-- Counterexample to C4 as stated: with a keep-going flag that reads
false (a pending interrupt), `run_to_input` returns immediately with
`running = true` while the current instruction is NOP, not IN. -/
theorem c4_counterexample :
    Vm.run_to_input 1 (fun _ => false) (Vm.new [21, 0])
        = Vm.RunResult.ret (Vm.new [21, 0]) ∧
    (Vm.new [21, 0]).running = true ∧
    (Vm.new [21, 0]).peek_op = some Op.nop ∧
    Op.nop ≠ Op.inp := by decide

/-- Witness for C4 at a machine suspended on `IN R0`. -/
theorem c4_witness :
    Vm.run_to_input 3 (fun _ => true) (Vm.new [20, 32768, 0])
        = Vm.RunResult.ret (Vm.new [20, 32768, 0]) ∧
    (Vm.new [20, 32768, 0]).running = true ∧
    ((Vm.new [20, 32768, 0]).peek_op = some Op.inp ∧
      (Vm.new [20, 32768, 0]).input = []) :=
  ⟨by decide, by decide,
    @c4_suspension 3 (fun _ => true) (Vm.new [20, 32768, 0])
      (Vm.new [20, 32768, 0]) (fun _ => rfl) (by decide) (by decide)⟩

/-! ### Claim C9: flash produces a full-size readable image -/

theorem try_get_isSome_of_rom {w : Vm} {a x : Nat}
    (hl : Mem.lookup a w.memory = none) (hr : w.rom[a]? = some x) :
    (w.try_get a).isSome = true := by
  unfold Vm.try_get
  simp only [hl]
  unfold Vm.get_rom
  rw [hr]
  rfl

/-- Full characterisation of `flash_rom` on a machine holding the
register slots, with no overlay entry above 65534 and a ROM of at most
65535 words: the new image has length exactly 32768 and holds the prior
effective value (0 where undefined) everywhere, and the overlay keeps
exactly its entries at addresses ≥ 32768. -/
theorem flash_rom_spec {vm : Vm}
    (hreg : ∀ r, r < 8 → (Mem.lookup (32768 + r) vm.memory).isSome = true)
    (hmk : Mem.maxKey vm.memory ≤ 65534)
    (hlen : vm.rom.length ≤ 65535) :
    ∃ vmF, vm.flash_rom = some vmF ∧
      vmF.rom.length = 32768 ∧
      (∀ a, a < 32768 → vmF.rom[a]? = some ((vm.try_get a).getD 0)) ∧
      (∀ a, a < 32768 → (vmF.try_get a).isSome = true) ∧
      (∀ k, Mem.lookup k vmF.memory =
        if 32768 ≤ k then Mem.lookup k vm.memory else none) ∧
      vmF.stack = vm.stack ∧
      vmF.instruction_pointer = vm.instruction_pointer ∧
      vmF.running = vm.running ∧ vmF.input = vm.input ∧
      vmF.output = vm.output ∧ vmF.live_output = vm.live_output := by
  have h75 : (Mem.lookup 32775 vm.memory).isSome = true := by
    have := hreg 7 (by omega)
    norm_num at this ⊢
    exact this
  obtain ⟨v, hv⟩ := Option.isSome_iff_exists.mp h75
  have hM : 32775 ≤ Mem.maxKey vm.memory := Mem.le_maxKey hv
  have hmod : (Mem.maxKey vm.memory + 1) % 65536 = Mem.maxKey vm.memory + 1 :=
    Nat.mod_eq_of_lt (by omega)
  have hmm : min 32768 (max ((Mem.maxKey vm.memory + 1) % 65536) vm.rom.length)
      = 32768 := by
    rw [hmod]; omega
  unfold Vm.flash_rom
  rw [if_neg (by omega)]
  generalize hgen : min 32768 (max ((Mem.maxKey vm.memory + 1) % 65536)
      vm.rom.length) = mm
  rw [hgen] at hmm
  have hget : ∀ a, a < 32768 →
      ((List.range mm).map (fun i => (vm.try_get i).getD 0))[a]?
        = some ((vm.try_get a).getD 0) := by
    intro a ha
    rw [List.getElem?_map, List.getElem?_range (show a < mm by omega)]
    rfl
  refine ⟨_, rfl, ?_, ?_, ?_, ?_, rfl, rfl, rfl, rfl, rfl, rfl⟩
  · show ((List.range mm).map (fun i => (vm.try_get i).getD 0)).length = 32768
    rw [List.length_map, List.length_range, hmm]
  · exact fun a ha => hget a ha
  · intro a ha
    apply try_get_isSome_of_rom (x := (vm.try_get a).getD 0)
    · show Mem.lookup a (Mem.splitGe 32768 vm.memory) = none
      rw [Mem.lookup_splitGe, if_neg (by omega : ¬ 32768 ≤ a)]
    · exact hget a ha
  · intro k
    exact Mem.lookup_splitGe 32768 k vm.memory

/-- Claim C9 (amended) — Flash full-size image: for every machine whose
overlay holds all eight register slots, has no overlay entry above
address 65534, and whose ROM does not exceed 65535 words, `flash_rom`
replaces ROM by an image of length exactly 32768 holding the prior
effective value at every address (0 where undefined), making every
address below 32768 readable, while the overlay retains exactly its
prior entries at addresses ≥ 32768. -/
theorem c9_flash_full_image {vm : Vm}
    (hreg : ∀ r, r < 8 → (Mem.lookup (32768 + r) vm.memory).isSome = true)
    (hmk : Mem.maxKey vm.memory ≤ 65534)
    (hlen : vm.rom.length ≤ 65535) :
    ∃ vmF, vm.flash_rom = some vmF ∧
      vmF.rom.length = 32768 ∧
      (∀ a, a < 32768 → vmF.rom[a]? = some ((vm.try_get a).getD 0)) ∧
      (∀ a, a < 32768 → (vmF.try_get a).isSome = true) ∧
      (∀ k, Mem.lookup k vmF.memory =
        if 32768 ≤ k then Mem.lookup k vm.memory else none) ∧
      vmF.stack = vm.stack ∧
      vmF.instruction_pointer = vm.instruction_pointer ∧
      vmF.running = vm.running ∧ vmF.input = vm.input ∧
      vmF.output = vm.output ∧ vmF.live_output = vm.live_output :=
  flash_rom_spec hreg hmk hlen

/-- Counterexample to C9 as stated: a machine holding all register slots
plus an overlay entry at address 65535 (reachable, e.g. via a `set 65535
1` debugger command on an empty program) makes the u16 computation
`max_key + 1` wrap to 0, so flash produces a ROM of length 0, not 32768. -/
theorem c9_counterexample :
    (∀ r, r < 8 →
      (Mem.lookup (32768 + r) ((Vm.new []).set 65535 1).memory).isSome = true) ∧
    (((Vm.new []).set 65535 1).flash_rom).map (fun v => v.rom.length)
      = some 0 := by decide

/-- Witness for C9 at a fresh one-word machine. -/
theorem c9_witness :
    (∀ r, r < 8 → (Mem.lookup (32768 + r) (Vm.new [0]).memory).isSome = true) ∧
    Mem.maxKey (Vm.new [0]).memory ≤ 65534 ∧
    (Vm.new [0]).rom.length ≤ 65535 ∧
    ∃ vmF, (Vm.new [0]).flash_rom = some vmF ∧ vmF.rom.length = 32768 := by
  refine ⟨by decide, by decide, by decide, ?_⟩
  obtain ⟨vmF, h1, h2, -⟩ :=
    @c9_flash_full_image (Vm.new [0]) (by decide) (by decide) (by decide)
  exact ⟨vmF, h1, h2⟩

/-! ### Claim C2: flash round-trip (observational refinement) -/

theorem try_get_eq_rom {w : Vm} {a : Nat}
    (hl : Mem.lookup a w.memory = none) : w.try_get a = w.rom[a]? := by
  unfold Vm.try_get
  simp only [hl]
  rfl

theorem try_get_eq_mem {w : Vm} {a v : Nat}
    (hl : Mem.lookup a w.memory = some v) : w.try_get a = some v := by
  unfold Vm.try_get
  simp only [hl]

theorem sim_fetch_set {v w v1 : Vm} {i : Nat} (hs : Sim v w)
    (h : v.fetch_set = some (i, v1)) :
    ∃ w1, w.fetch_set = some (i, w1) ∧ Sim v1 w1 := by
  obtain ⟨h1, h2, h3, h4, h5, h6, h7⟩ := hs
  obtain ⟨hg, hveq⟩ := Vm.fetch_set_inv h
  refine ⟨{ w with instruction_pointer := (w.instruction_pointer + 1) % 65536 },
    ?_, ?_⟩
  · unfold Vm.fetch_set
    rw [h2, h7 _ _ hg]
  · subst hveq
    exact ⟨h1, by rw [h2], h3, h4, h5, h6, fun a x hx => h7 a x hx⟩

theorem sim_fetch_read {v w v1 : Vm} {u : Nat} (hs : Sim v w)
    (h : v.fetch_read = some (u, v1)) :
    ∃ w1, w.fetch_read = some (u, w1) ∧ Sim v1 w1 := by
  obtain ⟨i, hfs, hlow, hhigh⟩ := Vm.fetch_read_inv h
  obtain ⟨w1, hwfs, hsim1⟩ := sim_fetch_set hs hfs
  refine ⟨w1, ?_, hsim1⟩
  unfold Vm.fetch_read
  simp only [hwfs]
  by_cases hr : 32768 ≤ i
  · rw [if_pos hr]
    simp only [hsim1.2.2.2.2.2.2 _ _ (hhigh hr)]
  · rw [if_neg hr]
    rw [hlow (by omega)]

theorem sim_set {v w : Vm} (hs : Sim v w) (a x : Nat) :
    Sim (v.set a x) (w.set a x) := by
  obtain ⟨h1, h2, h3, h4, h5, h6, h7⟩ := hs
  refine ⟨by simp [h1], by simp [h2], by simp [h3], by simp [h4],
    by simp [h5], by simp [h6], ?_⟩
  intro b y hb
  by_cases hab : b = a
  · subst hab
    rw [Vm.try_get_set_self] at hb ⊢
    exact hb
  · rw [Vm.try_get_set_ne _ _ _ _ hab] at hb ⊢
    exact h7 b y hb

theorem sim_binop {v w v1 : Vm} {f : Nat → Nat → Option Nat} (hs : Sim v w)
    (h : v.binop f = some v1) :
    ∃ w1, w.binop f = some w1 ∧ Sim v1 w1 := by
  unfold Vm.binop at h ⊢
  cases ha : v.fetch_set with
  | none => rw [ha] at h; cases h
  | some pa =>
    obtain ⟨a, vA⟩ := pa
    simp only [ha] at h
    obtain ⟨wA, hwA, hsA⟩ := sim_fetch_set hs ha
    simp only [hwA]
    cases hb : vA.fetch_read with
    | none => rw [hb] at h; cases h
    | some pb =>
      obtain ⟨b, vB⟩ := pb
      simp only [hb] at h
      obtain ⟨wB, hwB, hsB⟩ := sim_fetch_read hsA hb
      simp only [hwB]
      cases hc : vB.fetch_read with
      | none => rw [hc] at h; cases h
      | some pc =>
        obtain ⟨c, vC⟩ := pc
        simp only [hc] at h
        obtain ⟨wC, hwC, hsC⟩ := sim_fetch_read hsB hc
        simp only [hwC]
        cases hr : f b c with
        | none => rw [hr] at h; cases h
        | some r =>
          simp only [hr] at h
          cases h
          exact ⟨wC.set a (r % 32768), rfl, sim_set hsC a (r % 32768)⟩

theorem sim_inp_core {vr wr v1 : Vm} (hsr : Sim vr wr)
    (h : (match vr.fetch_set with
          | none => none
          | some (a, vm1) =>
            match vm1.input with
            | [] => none
            | c :: rest =>
              some ({ vm1 with input := rest }.set a (c % 65536))) = some v1) :
    ∃ w1, (match wr.fetch_set with
          | none => none
          | some (a, vm1) =>
            match vm1.input with
            | [] => none
            | c :: rest =>
              some ({ vm1 with input := rest }.set a (c % 65536))) = some w1 ∧
      Sim v1 w1 := by
  cases ha : vr.fetch_set with
  | none => rw [ha] at h; cases h
  | some pa =>
    obtain ⟨a, vA⟩ := pa
    simp only [ha] at h
    obtain ⟨wA, hwA, hsA⟩ := sim_fetch_set hsr ha
    simp only [hwA]
    cases hi : vA.input with
    | nil => rw [hi] at h; cases h
    | cons c rest =>
      simp only [hi] at h
      cases h
      have hwi : wA.input = c :: rest := by rw [hsA.2.2.2.1, hi]
      simp only [hwi]
      obtain ⟨g1, g2, g3, g4, g5, g6, g7⟩ := hsA
      refine ⟨_, rfl, sim_set ?_ a (c % 65536)⟩
      exact ⟨g1, g2, g3, rfl, g5, g6, fun b y hb => g7 b y hb⟩

theorem sim_step {v w v1 : Vm} {l : List Nat} (hs : Sim v w)
    (h : v.step l = some v1) : ∃ w1, w.step l = some w1 ∧ Sim v1 w1 := by
  unfold Vm.step at h ⊢
  cases hfr : v.fetch_read with
  | none => rw [hfr] at h; cases h
  | some p =>
    obtain ⟨d, v0⟩ := p
    simp only [hfr] at h
    obtain ⟨w0, hwfr, hs0⟩ := sim_fetch_read hs hfr
    simp only [hwfr]
    cases hop : decodeOp d with
    | none => rw [hop] at h; cases h
    | some op =>
      simp only [hop] at h ⊢
      obtain ⟨g1, g2, g3, g4, g5, g6, g7⟩ := hs0
      cases op
      case halt =>
        cases h
        exact ⟨_, rfl, g1, g2, rfl, g4, g5, g6, fun a x hx => g7 a x hx⟩
      case set =>
        cases ha : v0.fetch_set with
        | none => rw [ha] at h; cases h
        | some pa =>
          obtain ⟨a, vA⟩ := pa
          simp only [ha] at h
          obtain ⟨wA, hwA, hsA⟩ :=
            sim_fetch_set ⟨g1, g2, g3, g4, g5, g6, g7⟩ ha
          simp only [hwA]
          cases hb : vA.fetch_read with
          | none => rw [hb] at h; cases h
          | some pb =>
            obtain ⟨b, vB⟩ := pb
            simp only [hb] at h
            obtain ⟨wB, hwB, hsB⟩ := sim_fetch_read hsA hb
            simp only [hwB]
            cases h
            exact ⟨_, rfl, sim_set hsB a b⟩
      case push =>
        cases ha : v0.fetch_read with
        | none => rw [ha] at h; cases h
        | some pa =>
          obtain ⟨a, vA⟩ := pa
          simp only [ha] at h
          obtain ⟨wA, hwA, hsA⟩ :=
            sim_fetch_read ⟨g1, g2, g3, g4, g5, g6, g7⟩ ha
          simp only [hwA]
          cases h
          obtain ⟨k1, k2, k3, k4, k5, k6, k7⟩ := hsA
          exact ⟨_, rfl, by rw [k1], k2, k3, k4, k5, k6,
            fun b y hb => k7 b y hb⟩
      case pop =>
        cases ha : v0.fetch_set with
        | none => rw [ha] at h; cases h
        | some pa =>
          obtain ⟨a, vA⟩ := pa
          simp only [ha] at h
          obtain ⟨wA, hwA, hsA⟩ :=
            sim_fetch_set ⟨g1, g2, g3, g4, g5, g6, g7⟩ ha
          simp only [hwA]
          cases hstk : vA.stack with
          | nil => rw [hstk] at h; cases h
          | cons t rest =>
            simp only [hstk] at h
            cases h
            obtain ⟨k1, k2, k3, k4, k5, k6, k7⟩ := hsA
            have hwstk : wA.stack = t :: rest := by rw [k1, hstk]
            simp only [hwstk]
            refine ⟨_, rfl, sim_set ?_ a t⟩
            exact ⟨rfl, k2, k3, k4, k5, k6, fun b y hb => k7 b y hb⟩
      case eq => exact sim_binop ⟨g1, g2, g3, g4, g5, g6, g7⟩ h
      case gt => exact sim_binop ⟨g1, g2, g3, g4, g5, g6, g7⟩ h
      case add => exact sim_binop ⟨g1, g2, g3, g4, g5, g6, g7⟩ h
      case mult => exact sim_binop ⟨g1, g2, g3, g4, g5, g6, g7⟩ h
      case mod => exact sim_binop ⟨g1, g2, g3, g4, g5, g6, g7⟩ h
      case and => exact sim_binop ⟨g1, g2, g3, g4, g5, g6, g7⟩ h
      case or => exact sim_binop ⟨g1, g2, g3, g4, g5, g6, g7⟩ h
      case jmp =>
        cases ha : v0.fetch_read with
        | none => rw [ha] at h; cases h
        | some pa =>
          obtain ⟨a, vA⟩ := pa
          simp only [ha] at h
          obtain ⟨wA, hwA, hsA⟩ :=
            sim_fetch_read ⟨g1, g2, g3, g4, g5, g6, g7⟩ ha
          simp only [hwA]
          cases h
          obtain ⟨k1, k2, k3, k4, k5, k6, k7⟩ := hsA
          exact ⟨_, rfl, k1, rfl, k3, k4, k5, k6, fun b y hb => k7 b y hb⟩
      case jt =>
        cases ha : v0.fetch_read with
        | none => rw [ha] at h; cases h
        | some pa =>
          obtain ⟨a, vA⟩ := pa
          simp only [ha] at h
          obtain ⟨wA, hwA, hsA⟩ :=
            sim_fetch_read ⟨g1, g2, g3, g4, g5, g6, g7⟩ ha
          simp only [hwA]
          cases hb : vA.fetch_read with
          | none => rw [hb] at h; cases h
          | some pb =>
            obtain ⟨b, vB⟩ := pb
            simp only [hb] at h
            obtain ⟨wB, hwB, hsB⟩ := sim_fetch_read hsA hb
            simp only [hwB]
            cases h
            obtain ⟨k1, k2, k3, k4, k5, k6, k7⟩ := hsB
            by_cases hcond : a ≠ 0
            · simp only [if_pos hcond]
              exact ⟨_, rfl, k1, rfl, k3, k4, k5, k6,
                fun e y he => k7 e y he⟩
            · simp only [if_neg hcond]
              exact ⟨_, rfl, k1, k2, k3, k4, k5, k6,
                fun e y he => k7 e y he⟩
      case jf =>
        cases ha : v0.fetch_read with
        | none => rw [ha] at h; cases h
        | some pa =>
          obtain ⟨a, vA⟩ := pa
          simp only [ha] at h
          obtain ⟨wA, hwA, hsA⟩ :=
            sim_fetch_read ⟨g1, g2, g3, g4, g5, g6, g7⟩ ha
          simp only [hwA]
          cases hb : vA.fetch_read with
          | none => rw [hb] at h; cases h
          | some pb =>
            obtain ⟨b, vB⟩ := pb
            simp only [hb] at h
            obtain ⟨wB, hwB, hsB⟩ := sim_fetch_read hsA hb
            simp only [hwB]
            cases h
            obtain ⟨k1, k2, k3, k4, k5, k6, k7⟩ := hsB
            by_cases hcond : a = 0
            · simp only [if_pos hcond]
              exact ⟨_, rfl, k1, rfl, k3, k4, k5, k6,
                fun e y he => k7 e y he⟩
            · simp only [if_neg hcond]
              exact ⟨_, rfl, k1, k2, k3, k4, k5, k6,
                fun e y he => k7 e y he⟩
      case not =>
        cases ha : v0.fetch_set with
        | none => rw [ha] at h; cases h
        | some pa =>
          obtain ⟨a, vA⟩ := pa
          simp only [ha] at h
          obtain ⟨wA, hwA, hsA⟩ :=
            sim_fetch_set ⟨g1, g2, g3, g4, g5, g6, g7⟩ ha
          simp only [hwA]
          cases hb : vA.fetch_read with
          | none => rw [hb] at h; cases h
          | some pb =>
            obtain ⟨b, vB⟩ := pb
            simp only [hb] at h
            obtain ⟨wB, hwB, hsB⟩ := sim_fetch_read hsA hb
            simp only [hwB]
            cases h
            exact ⟨_, rfl, sim_set hsB a ((65535 - b) % 32768)⟩
      case rmem =>
        cases ha : v0.fetch_set with
        | none => rw [ha] at h; cases h
        | some pa =>
          obtain ⟨a, vA⟩ := pa
          simp only [ha] at h
          obtain ⟨wA, hwA, hsA⟩ :=
            sim_fetch_set ⟨g1, g2, g3, g4, g5, g6, g7⟩ ha
          simp only [hwA]
          cases hb : vA.fetch_read with
          | none => rw [hb] at h; cases h
          | some pb =>
            obtain ⟨ab, vB⟩ := pb
            simp only [hb] at h
            obtain ⟨wB, hwB, hsB⟩ := sim_fetch_read hsA hb
            simp only [hwB]
            cases hg : vB.try_get ab with
            | none => rw [hg] at h; cases h
            | some bval =>
              simp only [hg] at h
              cases h
              simp only [hsB.2.2.2.2.2.2 _ _ hg]
              exact ⟨_, rfl, sim_set hsB a bval⟩
      case wmem =>
        cases ha : v0.fetch_read with
        | none => rw [ha] at h; cases h
        | some pa =>
          obtain ⟨a, vA⟩ := pa
          simp only [ha] at h
          obtain ⟨wA, hwA, hsA⟩ :=
            sim_fetch_read ⟨g1, g2, g3, g4, g5, g6, g7⟩ ha
          simp only [hwA]
          cases hb : vA.fetch_read with
          | none => rw [hb] at h; cases h
          | some pb =>
            obtain ⟨b, vB⟩ := pb
            simp only [hb] at h
            obtain ⟨wB, hwB, hsB⟩ := sim_fetch_read hsA hb
            simp only [hwB]
            cases h
            exact ⟨_, rfl, sim_set hsB a b⟩
      case call =>
        cases ha : v0.fetch_read with
        | none => rw [ha] at h; cases h
        | some pa =>
          obtain ⟨a, vA⟩ := pa
          simp only [ha] at h
          obtain ⟨wA, hwA, hsA⟩ :=
            sim_fetch_read ⟨g1, g2, g3, g4, g5, g6, g7⟩ ha
          simp only [hwA]
          cases h
          obtain ⟨k1, k2, k3, k4, k5, k6, k7⟩ := hsA
          exact ⟨_, rfl, by rw [k1, k2], rfl, k3, k4, k5, k6,
            fun b y hb => k7 b y hb⟩
      case ret =>
        cases hstk : v0.stack with
        | nil =>
          simp only [hstk] at h
          cases h
          have hwstk : w0.stack = [] := by rw [g1, hstk]
          simp only [hwstk]
          exact ⟨_, rfl, rfl, g2, rfl, g4, g5, g6, fun a x hx => g7 a x hx⟩
        | cons t rest =>
          simp only [hstk] at h
          cases h
          have hwstk : w0.stack = t :: rest := by rw [g1, hstk]
          simp only [hwstk]
          exact ⟨_, rfl, rfl, rfl, g3, g4, g5, g6, fun a x hx => g7 a x hx⟩
      case out =>
        cases ha : v0.fetch_read with
        | none => rw [ha] at h; cases h
        | some pa =>
          obtain ⟨ch, vA⟩ := pa
          simp only [ha] at h
          obtain ⟨wA, hwA, hsA⟩ :=
            sim_fetch_read ⟨g1, g2, g3, g4, g5, g6, g7⟩ ha
          simp only [hwA]
          by_cases hcond : 55296 ≤ ch ∧ ch ≤ 57343
          · rw [if_pos hcond] at h; cases h
          · rw [if_neg hcond] at h
            cases h
            rw [if_neg hcond]
            obtain ⟨k1, k2, k3, k4, k5, k6, k7⟩ := hsA
            exact ⟨_, rfl, k1, k2, k3, k4, by rw [k5], k6,
              fun b y hb => k7 b y hb⟩
      case inp =>
        by_cases hin : v0.input = []
        · rw [if_pos hin] at h
          have hwin : w0.input = [] := by rw [g4, hin]
          rw [if_pos hwin]
          refine sim_inp_core ?_ h
          exact ⟨g1, g2, g3, rfl, g5, g6, fun b y hb => g7 b y hb⟩
        · rw [if_neg hin] at h
          have hwin : ¬ w0.input = [] := by rw [g4]; exact hin
          rw [if_neg hwin]
          exact sim_inp_core ⟨g1, g2, g3, g4, g5, g6, g7⟩ h
      case nop =>
        cases h
        exact ⟨_, rfl, g1, g2, g3, g4, g5, g6, fun a x hx => g7 a x hx⟩

theorem flash_sim {vm : Vm}
    (hreg : ∀ r, r < 8 → (Mem.lookup (32768 + r) vm.memory).isSome = true)
    (hmk : Mem.maxKey vm.memory ≤ 65534)
    (hlen : vm.rom.length ≤ 32768) :
    ∃ vmF, vm.flash_rom = some vmF ∧ Sim vm vmF := by
  obtain ⟨vmF, hf, hlen32, hrv, hrd, hmem, hstk, hip, hrun, hin, hout, hlive⟩ :=
    flash_rom_spec hreg hmk (by omega)
  refine ⟨vmF, hf, hstk, hip, hrun, hin, hout, hlive, ?_⟩
  intro a x hx
  by_cases ha : a < 32768
  · have hl : Mem.lookup a vmF.memory = none := by
      rw [hmem a, if_neg (by omega)]
    rw [try_get_eq_rom hl, hrv a ha, hx]
    rfl
  · have hrom : vm.get_rom a = none := by
      unfold Vm.get_rom
      apply List.getElem?_eq_none
      omega
    have hl : Mem.lookup a vm.memory = some x := by
      unfold Vm.try_get at hx
      cases hl2 : Mem.lookup a vm.memory with
      | none =>
        simp only [hl2] at hx
        rw [hrom] at hx
        cases hx
      | some y =>
        simp only [hl2] at hx
        cases hx
        rfl
    have hlF : Mem.lookup a vmF.memory = some x := by
      rw [hmem a, if_pos (by omega), hl]
    rw [try_get_eq_mem hlF]

theorem sim_runSteps : ∀ (n : Nat) (oracle : Nat → List Nat) {v w v1 : Vm},
    Sim v w → runSteps oracle n v = some v1 →
    ∃ w1, runSteps oracle n w = some w1 ∧ Sim v1 w1 := by
  intro n
  induction n with
  | zero =>
    intro oracle v w v1 hs h
    cases h
    exact ⟨w, rfl, hs⟩
  | succ n ih =>
    intro oracle v w v1 hs h
    unfold runSteps at h ⊢
    cases hst : v.step (oracle 0) with
    | none => rw [hst] at h; cases h
    | some v2 =>
      simp only [hst] at h
      obtain ⟨w2, hw2, hs2⟩ := sim_step hs hst
      simp only [hw2]
      exact ih _ hs2 h

/-- Claim C2 (amended) — Flash round-trip: for every machine holding the
register slots, with no overlay entry above address 65534 and a ROM of at
most 32768 words, flashing and then making zero writes is observationally
equivalent to not flashing on everything the original machine can
observe: every address readable before the flash reads the same value
after it (previously unreadable addresses below 32768 become readable as
0), all other state components are unchanged, and every fault-free
execution of n steps from the original machine is matched step-for-step
by the flashed machine, ending in a state related the same way. -/
theorem c2_flash_round_trip {vm : Vm}
    (hreg : ∀ r, r < 8 → (Mem.lookup (32768 + r) vm.memory).isSome = true)
    (hmk : Mem.maxKey vm.memory ≤ 65534)
    (hlen : vm.rom.length ≤ 32768) :
    ∃ vmF, vm.flash_rom = some vmF ∧ Sim vm vmF ∧
      ∀ (oracle : Nat → List Nat) (n : Nat) (v1 : Vm),
        runSteps oracle n vm = some v1 →
        ∃ w1, runSteps oracle n vmF = some w1 ∧ Sim v1 w1 := by
  obtain ⟨vmF, hf, hsim⟩ := flash_sim hreg hmk hlen
  exact ⟨vmF, hf, hsim, fun oracle n v1 h => sim_runSteps n oracle hsim h⟩

/-- Counterexample to C2 as stated: on a machine whose program is empty,
address 0 is unreadable before the flash (`try_get` is `none`, `get`
faults) but reads 0 after it, so flash-then-no-writes is observationally
distinguishable from no flash. -/
theorem c2_counterexample :
    (Vm.new []).try_get 0 = none ∧
    ((Vm.new []).flash_rom).bind (fun v => v.try_get 0) = some 0 := by
  refine ⟨by decide, ?_⟩
  obtain ⟨vmF, h1, -, hrv, -, hmem, -⟩ :=
    @flash_rom_spec (Vm.new []) (by decide) (by decide) (by decide)
  rw [h1]
  show vmF.try_get 0 = some 0
  have hl : Mem.lookup 0 vmF.memory = none := by
    rw [hmem 0]
    rfl
  rw [try_get_eq_rom hl, hrv 0 (by omega)]
  rfl

/-- Witness for C2 at a fresh one-word machine. -/
theorem c2_witness :
    (∀ r, r < 8 → (Mem.lookup (32768 + r) (Vm.new [0]).memory).isSome = true) ∧
    Mem.maxKey (Vm.new [0]).memory ≤ 65534 ∧
    (Vm.new [0]).rom.length ≤ 32768 ∧
    ∃ vmF, (Vm.new [0]).flash_rom = some vmF ∧ Sim (Vm.new [0]) vmF := by
  refine ⟨by decide, by decide, by decide, ?_⟩
  obtain ⟨vmF, h1, h2, -⟩ :=
    @c2_flash_round_trip (Vm.new [0]) (by decide) (by decide) (by decide)
  exact ⟨vmF, h1, h2⟩

/-! ### Claim C10: memoised and pure Ackermann variant agree
(src/src/ack.rs).  `(x + 32767) % 32768` is the u16
decrement-modulo-32768 written in the source; for the claim's 15-bit
inputs no u16 addition in the source can overflow, so `Nat` arithmetic
coincides with the u16 arithmetic. -/

theorem lookupAck_insertAck (memo : AckMemo) (a b v x y : Nat) :
    lookupAck (insertAck memo a b v) x y =
      if ((a, b) : Nat × Nat) = (x, y) then some v else lookupAck memo x y := by
  induction memo with
  | nil => simp [insertAck, lookupAck]
  | cons p t ih =>
    obtain ⟨k, w⟩ := p
    by_cases h : k = (a, b)
    · rw [show insertAck ((k, w) :: t) a b v = ((a, b), v) :: t from by
        simp [insertAck, h]]
      by_cases h2 : ((a, b) : Nat × Nat) = (x, y)
      · rw [show lookupAck (((a, b), v) :: t) x y = some v from by
          simp [lookupAck, h2]]
        rw [if_pos h2]
      · rw [show lookupAck (((a, b), v) :: t) x y = lookupAck t x y from by
          simp [lookupAck, h2]]
        rw [if_neg h2]
        rw [show lookupAck ((k, w) :: t) x y = lookupAck t x y from by
          simp [lookupAck, show ¬ k = (x, y) from fun hh => h2 (h ▸ hh)]]
    · rw [show insertAck ((k, w) :: t) a b v = (k, w) :: insertAck t a b v from by
        simp [insertAck, h]]
      by_cases h3 : k = (x, y)
      · have h2 : ¬ ((a, b) : Nat × Nat) = (x, y) := fun hh => h (h3.trans hh.symm)
        rw [show lookupAck ((k, w) :: insertAck t a b v) x y = some w from by
          simp [lookupAck, h3]]
        rw [if_neg h2]
        rw [show lookupAck ((k, w) :: t) x y = some w from by
          simp [lookupAck, h3]]
      · rw [show lookupAck ((k, w) :: insertAck t a b v) x y
            = lookupAck (insertAck t a b v) x y from by simp [lookupAck, h3]]
        rw [ih]
        rw [show lookupAck ((k, w) :: t) x y = lookupAck t x y from by
          simp [lookupAck, h3]]

theorem ackValid_insert {c : Nat} {memo : AckMemo}
    (hval : AckValid c memo) {a b v : Nat} (hv : v = pure_ack a b c) :
    AckValid c (insertAck memo a b v) := by
  intro x y u hu
  rw [lookupAck_insertAck] at hu
  by_cases h : ((a, b) : Nat × Nat) = (x, y)
  · rw [if_pos h] at hu
    cases hu
    have h1 : a = x := congrArg Prod.fst h
    have h2 : b = y := congrArg Prod.snd h
    rw [hv, h1, h2]
  · rw [if_neg h] at hu
    exact hval x y u hu

theorem memo_ack_correct (c : Nat) :
    ∀ a b (memo : AckMemo), AckValid c memo →
      (memo_ack memo a b c).1 = pure_ack a b c ∧
      AckValid c (memo_ack memo a b c).2 := by
  intro a
  induction a using Nat.strong_induction_on with
  | _ a ihA =>
    intro b
    induction b using Nat.strong_induction_on with
    | _ b ihB =>
      intro memo hval
      rw [memo_ack.eq_def]
      cases hlk : lookupAck memo a b with
      | some ans =>
        simp only [hlk]
        exact ⟨hval a b ans hlk, hval⟩
      | none =>
        simp only [hlk]
        by_cases ha : a = 0
        · simp only [if_pos ha]
          have hpure : pure_ack a b c = (b + 1) % 32768 := by
            rw [pure_ack, if_pos ha]
          exact ⟨hpure.symm, ackValid_insert hval hpure.symm⟩
        · simp only [if_neg ha]
          by_cases hb : b = 0
          · simp only [if_pos hb]
            have hdec : (a + 32767) % 32768 < a := by omega
            obtain ⟨hp1, hp2⟩ := ihA _ hdec c memo hval
            have hpure : pure_ack a b c = pure_ack ((a + 32767) % 32768) c c := by
              rw [pure_ack, if_neg ha, if_pos hb]
            constructor
            · show (memo_ack memo ((a + 32767) % 32768) c c).1 = pure_ack a b c
              rw [hp1, hpure]
            · exact ackValid_insert hp2 (by rw [hp1, hpure])
          · simp only [if_neg hb]
            have hdecb : (b + 32767) % 32768 < b := by omega
            obtain ⟨hp1, hp2⟩ := ihB _ hdecb memo hval
            have hdeca : (a + 32767) % 32768 < a := by omega
            obtain ⟨hq1, hq2⟩ := ihA _ hdeca
              (memo_ack memo a ((b + 32767) % 32768) c).1
              (memo_ack memo a ((b + 32767) % 32768) c).2 hp2
            have hpure : pure_ack a b c
                = pure_ack ((a + 32767) % 32768)
                    (pure_ack a ((b + 32767) % 32768) c) c := by
              rw [pure_ack, if_neg ha, if_neg hb]
            constructor
            · show (memo_ack (memo_ack memo a ((b + 32767) % 32768) c).2
                  ((a + 32767) % 32768)
                  (memo_ack memo a ((b + 32767) % 32768) c).1 c).1
                = pure_ack a b c
              rw [hq1, hp1, hpure]
            · refine ackValid_insert hq2 ?_
              rw [hq1, hp1, hpure]

theorem ackValid_nil (c : Nat) : AckValid c [] := by
  intro a b v h
  simp [lookupAck] at h

/-- Claim C10 — Memoised and pure Ackermann variant agree: for all
15-bit a, b, c, `memo_ack` run from an empty cache returns the same
value as `pure_ack a b c`; the cache may be keyed by `(a, b)` alone
because the third argument is constant throughout the recursion. -/
theorem c10_memo_ack_eq_pure (a b c : Nat)
    (ha : a < 32768) (hb : b < 32768) (hc : c < 32768) :
    (memo_ack [] a b c).1 = pure_ack a b c :=
  (memo_ack_correct c a b [] (ackValid_nil c)).1

/-- Witness for C10 at a = b = c = 1. -/
theorem c10_witness :
    (1 : Nat) < 32768 ∧ (memo_ack [] 1 1 1).1 = pure_ack 1 1 1 :=
  ⟨by decide, c10_memo_ack_eq_pure 1 1 1 (by decide) (by decide) (by decide)⟩

/-! ### Claim C1: snapshot-store time-travel invariant (the REPL in
`main`, src/src/main.rs lines 294-404)

The REPL loop: before reading each command it performs
`saves.entry(vm.clone()).or_insert(step_no)` and, when the returned
first-seen index equals `step_no`, records `by_step[step_no] = vm`;
then it unconditionally drains the output buffer with
`vm.take_output()` (line 304) — a mutation of the working machine that
itself creates a fresh structural state whenever the buffer was
nonempty.  The command dispatch follows: commands that only print
(`diff`, `get`, `input`, `dissassemble`, `dump`) or mutate a clone
(`search`) leave (vm, saves, by_step, step_no) unchanged beyond that
drain — their fatal sub-cases only end the trace early — and are
modelled by `noop`; `solve` is the `feed` of a fixed canned script, so
`feed` (input line, then `run_to_input`, then `step_no += 1`) covers
it; `quit` ends the command list. -/

theorem lookupVm_insertVm (s : List (Vm × Nat)) (v : Vm) (n : Nat) (q : Vm) :
    lookupVm (insertVm s v n) q = if v = q then some n else lookupVm s q := by
  induction s with
  | nil => simp [insertVm, lookupVm]
  | cons p t ih =>
    obtain ⟨w, m⟩ := p
    by_cases h : w = v
    · subst h
      simp only [insertVm, if_pos rfl, lookupVm]
      by_cases h2 : w = q
      · simp [lookupVm, h2]
      · simp [lookupVm, h2]
    · simp only [insertVm, if_neg h, lookupVm, ih]
      by_cases h2 : w = q
      · have h3 : ¬ v = q := fun hh => h (h2.trans hh.symm)
        simp [h2, h3]
      · simp [h2]

theorem lookupStep_insertStep (s : List (Nat × Vm)) (n : Nat) (v : Vm)
    (q : Nat) :
    lookupStep (insertStep s n v) q
      = if n = q then some v else lookupStep s q := by
  induction s with
  | nil => simp [insertStep, lookupStep]
  | cons p t ih =>
    obtain ⟨m, w⟩ := p
    by_cases h : m = n
    · subst h
      simp only [insertStep, if_pos rfl, lookupStep]
      by_cases h2 : m = q
      · simp [lookupStep, h2]
      · simp [lookupStep, h2]
    · simp only [insertStep, if_neg h, lookupStep, ih]
      by_cases h2 : m = q
      · have h3 : ¬ n = q := fun hh => h (h2.trans hh.symm)
        simp [h2, h3]
      · simp [h2]

theorem snapshot_props {st : ReplState} (hg : GoodRepl st) :
    GoodRepl (snapshot st) ∧
    (lookupVm (snapshot st).saves (snapshot st).vm).isSome = true := by
  obtain ⟨hI, hJ, hB, hW⟩ := hg
  cases hl : lookupVm st.saves st.vm with
  | some m =>
    by_cases hm : m = st.stepNo
    · subst hm
      have hsnap : snapshot st =
          { st with bystep := insertStep st.bystep st.stepNo st.vm } := by
        unfold snapshot
        simp only [hl]
        rw [if_true]
      rw [hsnap]
      have hbm : lookupStep st.bystep st.stepNo = some st.vm := hI _ _ hl
      refine ⟨⟨?_, ?_, ?_, ?_⟩, ?_⟩
      · show ∀ vm2 m2, lookupVm st.saves vm2 = some m2 →
          lookupStep (insertStep st.bystep st.stepNo st.vm) m2 = some vm2
        intro vm2 m2 h2
        rw [lookupStep_insertStep]
        by_cases he : st.stepNo = m2
        · rw [if_pos he]
          have h3 := hI _ _ h2
          rw [← he, hbm] at h3
          cases h3
          rfl
        · rw [if_neg he]
          exact hI _ _ h2
      · show ∀ n vm2,
          lookupStep (insertStep st.bystep st.stepNo st.vm) n = some vm2 →
          lookupVm st.saves vm2 = some n
        intro n vm2 h2
        rw [lookupStep_insertStep] at h2
        by_cases he : st.stepNo = n
        · rw [if_pos he] at h2
          cases h2
          rw [← he]
          exact hl
        · rw [if_neg he] at h2
          exact hJ _ _ h2
      · show ∀ n vm2,
          lookupStep (insertStep st.bystep st.stepNo st.vm) n = some vm2 →
          n ≤ st.stepNo
        intro n vm2 h2
        rw [lookupStep_insertStep] at h2
        by_cases he : st.stepNo = n
        · omega
        · rw [if_neg he] at h2
          exact hB _ _ h2
      · show lookupVm st.saves st.vm = none →
          lookupStep (insertStep st.bystep st.stepNo st.vm) st.stepNo = none
        intro hcon
        rw [hl] at hcon
        cases hcon
      · show (lookupVm st.saves st.vm).isSome = true
        rw [hl]
        rfl
    · have hsnap : snapshot st = st := by
        unfold snapshot
        simp only [hl]
        rw [if_neg hm]
      rw [hsnap]
      refine ⟨⟨hI, hJ, hB, hW⟩, ?_⟩
      show (lookupVm st.saves st.vm).isSome = true
      rw [hl]
      rfl
  | none =>
    have hby : lookupStep st.bystep st.stepNo = none := hW hl
    have hsnap : snapshot st =
        { st with saves := insertVm st.saves st.vm st.stepNo
                  bystep := insertStep st.bystep st.stepNo st.vm } := by
      unfold snapshot
      simp only [hl]
    rw [hsnap]
    refine ⟨⟨?_, ?_, ?_, ?_⟩, ?_⟩
    · show ∀ vm2 m2, lookupVm (insertVm st.saves st.vm st.stepNo) vm2 = some m2 →
        lookupStep (insertStep st.bystep st.stepNo st.vm) m2 = some vm2
      intro vm2 m2 h2
      rw [lookupVm_insertVm] at h2
      rw [lookupStep_insertStep]
      by_cases he : st.vm = vm2
      · rw [if_pos he] at h2
        cases h2
        rw [if_pos rfl, he]
      · rw [if_neg he] at h2
        have hm2 : ¬ st.stepNo = m2 := by
          intro hh
          rw [← hh] at h2
          have h3 := hI _ _ h2
          rw [hby] at h3
          cases h3
        rw [if_neg hm2]
        exact hI _ _ h2
    · show ∀ n vm2,
        lookupStep (insertStep st.bystep st.stepNo st.vm) n = some vm2 →
        lookupVm (insertVm st.saves st.vm st.stepNo) vm2 = some n
      intro n vm2 h2
      rw [lookupStep_insertStep] at h2
      rw [lookupVm_insertVm]
      by_cases he : st.stepNo = n
      · rw [if_pos he] at h2
        cases h2
        rw [if_pos rfl, he]
      · rw [if_neg he] at h2
        have hv2 : ¬ st.vm = vm2 := by
          intro hh
          rw [← hh] at h2
          have h3 := hJ _ _ h2
          rw [hl] at h3
          cases h3
        rw [if_neg hv2]
        exact hJ _ _ h2
    · show ∀ n vm2,
        lookupStep (insertStep st.bystep st.stepNo st.vm) n = some vm2 →
        n ≤ st.stepNo
      intro n vm2 h2
      rw [lookupStep_insertStep] at h2
      by_cases he : st.stepNo = n
      · omega
      · rw [if_neg he] at h2
        exact hB _ _ h2
    · show lookupVm (insertVm st.saves st.vm st.stepNo) st.vm = none →
        lookupStep (insertStep st.bystep st.stepNo st.vm) st.stepNo = none
      intro hcon
      rw [lookupVm_insertVm, if_pos rfl] at hcon
      cases hcon
    · show (lookupVm (insertVm st.saves st.vm st.stepNo) st.vm).isSome = true
      rw [lookupVm_insertVm, if_pos rfl]
      rfl

theorem doCmd_good {st st1 : ReplState} {cmd : Cmd}
    (hg : GoodRepl st) (hcur : (lookupVm st.saves st.vm).isSome = true)
    (hns : cmd.isSet = false) (h : doCmd st cmd = some st1) :
    GoodRepl st1 := by
  obtain ⟨hI, hJ, hB, hW⟩ := hg
  cases cmd with
  | noop =>
    cases h
    exact ⟨hI, hJ, hB, hW⟩
  | set a v => simp [Cmd.isSet] at hns
  | load k =>
    cases h
    cases hlk : lookupStep st.bystep k with
    | none => exact ⟨hI, hJ, hB, hW⟩
    | some sav =>
      refine ⟨hI, hJ, hB, ?_⟩
      show lookupVm st.saves sav = none →
        lookupStep st.bystep st.stepNo = none
      intro hcon
      have h4 : lookupVm st.saves sav = some k := hJ _ _ hlk
      rw [hcon] at h4
      cases h4
  | feed line fuel flags =>
    simp only [doCmd] at h
    split at h
    · rename_i vm2 heq
      cases h
      refine ⟨hI, hJ, ?_, ?_⟩
      · show ∀ n vm3, lookupStep st.bystep n = some vm3 → n ≤ st.stepNo + 1
        intro n vm3 h3
        have h4 := hB _ _ h3
        omega
      · show lookupVm st.saves vm2 = none →
          lookupStep st.bystep (st.stepNo + 1) = none
        intro hcon
        cases hby : lookupStep st.bystep (st.stepNo + 1) with
        | none => rfl
        | some w =>
          have h4 := hB _ _ hby
          omega
    · cases h

theorem initRepl_good (vm0 : Vm) : GoodRepl (initRepl vm0) := by
  refine ⟨?_, ?_, ?_, ?_⟩
  · intro a b hcon
    cases hcon
  · intro a b hcon
    cases hcon
  · intro a b hcon
    cases hcon
  · intro hcon
    rfl

theorem output_empty_of_isEmpty {l : List Nat} (h : l.isEmpty = true) :
    l = [] := by
  cases l
  · rfl
  · simp [List.isEmpty] at h

theorem output_erase_eq {v : Vm} (h : v.output = []) :
    { v with output := ([] : List Nat) } = v := by
  cases v
  cases h
  rfl

theorem drain_eq {st : ReplState} (h : st.vm.output = []) : drain st = st := by
  unfold drain
  rw [output_erase_eq h]

theorem snapshot_vm (st : ReplState) : (snapshot st).vm = st.vm := by
  unfold snapshot
  split
  · split <;> rfl
  · rfl

theorem runRepl_inv : ∀ (cmds : List Cmd) (st0 st : ReplState),
    GoodRepl st0 → cmds.all (fun cmd => !cmd.isSet) = true →
    outputsClean st0 cmds = true →
    runRepl st0 cmds = some st → SnapshotInv st := by
  intro cmds
  induction cmds with
  | nil =>
    intro st0 st hg hns hoc h
    have hout : st0.vm.output = [] := output_empty_of_isEmpty hoc
    have hdr : drain (snapshot st0) = snapshot st0 :=
      drain_eq (by rw [snapshot_vm]; exact hout)
    cases h
    rw [hdr]
    exact (snapshot_props hg).1.1
  | cons cmd cmds ih =>
    intro st0 st hg hns hoc h
    unfold runRepl at h
    unfold outputsClean at hoc
    rw [Bool.and_eq_true] at hoc
    have hout : st0.vm.output = [] := output_empty_of_isEmpty hoc.1
    have hdr : drain (snapshot st0) = snapshot st0 :=
      drain_eq (by rw [snapshot_vm]; exact hout)
    rw [hdr] at h
    have hoc2 := hoc.2
    rw [hdr] at hoc2
    obtain ⟨hg1, hcur⟩ := snapshot_props hg
    rw [List.all_cons, Bool.and_eq_true] at hns
    have hns1 : cmd.isSet = false := by
      cases hc : cmd.isSet
      · rfl
      · rw [hc] at hns; cases hns.1
    cases hdo : doCmd (snapshot st0) cmd with
    | none => rw [hdo] at h; cases h
    | some st1 =>
      simp only [hdo] at h hoc2
      exact ih st1 st (doCmd_good hg1 hcur hns1 hdo) hns.2 hoc2 h

/-- Claim C1 (amended) — Snapshot-store time-travel invariant: at every
read point of the REPL, provided the executed commands include no `set`
command and the working machine's output buffer is empty at every loop
top (so the unconditional `take_output` drain never changes the state),
every recorded state S with `first_seen[S] = m` has `by_step[m]`
structurally equal to S.  (`load` commands, which also change the
current state without advancing `step_no`, are covered.)  Without these
conditions the invariant fails: both the drain of a nonempty buffer and
a `set` command create a fresh state at the unchanged `step_no`, and
its snapshot overwrites `by_step[step_no]`. -/
theorem c1_snapshot_invariant {vm0 : Vm} {cmds : List Cmd} {st : ReplState}
    (hns : cmds.all (fun cmd => !cmd.isSet) = true)
    (hoc : outputsClean (initRepl vm0) cmds = true)
    (h : runRepl (initRepl vm0) cmds = some st) :
    SnapshotInv st :=
  runRepl_inv cmds (initRepl vm0) st (initRepl_good vm0) hns hoc h

/-- Counterexample to C1 as stated, in both failure modes.  First, with
no `set` command at all: a machine with pending output text is recorded
at step 0, the unconditional `take_output` drain then yields a fresh
state, and after a print-only command the next read point records that
drained state with `first_seen = 0` too, overwriting `by_step[0]` —
`first_seen` of the original state still points there.  Second, the
command `set 0 1` creates a brand-new state at the unchanged step 0
with the same overwriting effect. -/
theorem c1_counterexample :
    (runRepl (initRepl { Vm.new [] with output := [65] }) [Cmd.noop]
      = some { vm := Vm.new []
               saves := [({ Vm.new [] with output := [65] }, 0), (Vm.new [], 0)]
               bystep := [(0, Vm.new [])]
               stepNo := 0 } ∧
     lookupVm [({ Vm.new [] with output := [65] }, 0), (Vm.new [], 0)]
        { Vm.new [] with output := [65] } = some 0 ∧
     lookupStep [(0, Vm.new [])] 0 ≠ some { Vm.new [] with output := [65] }) ∧
    (runRepl (initRepl (Vm.new [])) [Cmd.set 0 1]
      = some { vm := (Vm.new []).set 0 1
               saves := [(Vm.new [], 0), ((Vm.new []).set 0 1, 0)]
               bystep := [(0, (Vm.new []).set 0 1)]
               stepNo := 0 } ∧
     lookupVm [(Vm.new [], 0), ((Vm.new []).set 0 1, 0)] (Vm.new [])
       = some 0 ∧
     lookupStep [(0, (Vm.new []).set 0 1)] 0 ≠ some (Vm.new [])) := by decide

/-- Witness for C1 on the one-command trace `[noop]`. -/
theorem c1_witness :
    ([Cmd.noop].all (fun cmd => !cmd.isSet) = true) ∧
    (outputsClean (initRepl (Vm.new [])) [Cmd.noop] = true) ∧
    SnapshotInv { vm := Vm.new []
                  saves := [(Vm.new [], 0)]
                  bystep := [(0, Vm.new [])]
                  stepNo := 0 } :=
  ⟨by decide, by decide,
    @c1_snapshot_invariant (Vm.new []) [Cmd.noop]
      { vm := Vm.new []
        saves := [(Vm.new [], 0)]
        bystep := [(0, Vm.new [])]
        stepNo := 0 }
      (by decide) (by decide) (by decide)⟩

/- Sanity checks on the embedding (spec §8 boundary examples). -/
example : (Vm.new [19, 72, 19, 73, 0]).step [] ≠ none := by decide
example :
    ((Vm.new [9, 32768, 32767, 1]).step []).bind (fun v => v.try_get 32768)
      = some 0 := by decide

end Synacor
